import Mathlib

/-!
# argparser: a shallow embedding of `libargparser.cpp`

The development follows the source file top to bottom: strings and the ordered
map, the variant `ArgTypes`, the converters bound by `Argument::set_converter`,
the classes `Argument`, `Command` and `ArgParser`, and then the properties.

Modelling conventions.

* `std::string` is `String`; every string operation is defined on the list of
  characters `s.data`. Command lines are taken to be valid UTF-8, for which
  prefix tests and lexicographic comparison on bytes and on code points agree.
* `std::map<std::string, V>` is a list of pairs kept in strictly ascending key
  order (`Map`). An iterator (`Iter`) is `end()` of the container at hand, the
  node with a given key, or an iterator of another container. Insertion never
  moves an existing iterator, as in `std::map`.
* A member function that mutates `*this` returns the new object next to its
  result. `Error` is `std::optional<std::string>`.
* Exceptions: the converters throw `std::invalid_argument` or
  `std::out_of_range`, which `set_value` catches. Calling a `std::function`
  that was never bound throws `std::bad_function_call`, which nothing catches;
  it propagates as `Except.error`.
* `int` is 32 bits, `long`, `long long` 64 bits (LP64, the platform of the
  `bits/gthr-default.h` include); the message of a numeral exception is the
  function name, as in libstdc++.
* `std::stof`, `std::stod`, `std::stold` are parameters (`FloatParsers`): a
  floating value is carried as its bit pattern.
* Undefined behaviour is an outcome of its own (`Fault`, `Ending`), never a
  value. Three places of the source have it.
  - Copying a `Command` copies `m_positional_iterator` as it is, so the cursor
    of the copy is an iterator of the collection of the object it was copied
    from (`Command.copy`). The default command of a parser is copy-assigned
    from a temporary (line 374) and a registered command is copied into
    `m_commands` (line 414): in both, `set_positional_argument_value` compares
    an iterator of another container with `end()` and dereferences it.
  - The local `std::shared_ptr<Command>` of `parse` owns `&m_default_command`
    (line 382). Its release, at the command switch of line 398 and in the
    destructor that every `return` runs, deletes an object that `new` did not
    allocate. A run of `parse` therefore never gets back to its caller
    (`Ending`).
  - The member template `value<T>` applies `std::get<T>` to the
    `std::optional` (lines 224, 226), for which there is no overload: it
    cannot be instantiated, and neither can `get<T>`. `Argument.value` is the
    reading with the optional dereferenced; it is used only to say which
    argument `get<T>` looks up.
-/

namespace argparser

/-! ## Strings -/

/-- The C++20 member `std::string::starts_with`. -/
def starts_with (s p : String) : Bool := p.data.isPrefixOf s.data

/-- The call `s.erase(0, 1)`: remove the first character. -/
def erase_first (s : String) : String := ⟨s.data.drop 1⟩

/-- Lexicographic comparison of character lists by code, `std::less<std::string>`. -/
def chars_lt : List Char → List Char → Bool
  | [], [] => false
  | [], _ :: _ => true
  | _ :: _, [] => false
  | a :: as, b :: bs =>
    if a.toNat < b.toNat then true
    else if b.toNat < a.toNat then false
    else chars_lt as bs

/-- The key order of `std::map<std::string, V>`. -/
def key_lt (a b : String) : Bool := chars_lt a.data b.data

/-- The helper `is_in_vector`: `std::find` reaches an equal element. -/
def is_in_vector (vector : List String) (element : String) : Bool :=
  vector.any (fun x => decide (x = element))

/-- The alias `Error = std::optional<std::string>`; `none` is success. -/
abbrev Error := Option String

/-! ## The ordered map -/

/-- A `std::map<std::string, β>`: entries in ascending key order. -/
abbrev Map (β : Type) := List (String × β)

/-- An iterator seen from a `Map`: `end()` of this map, the node of this map with
key `k`, or an iterator of another container. -/
inductive Iter where
  | past_the_end
  | node (k : String)
  | foreign
  deriving DecidableEq, Repr

namespace Map

variable {β : Type}

/-- The iterator `begin()`: the first node, `end()` when the map is empty. -/
def begin_ (m : Map β) : Iter :=
  match m with
  | [] => .past_the_end
  | (k, _) :: _ => .node k

/-- The iterator `end()`. -/
def end_ : Iter := .past_the_end

/-- The member `find`, giving the mapped value of the node or nothing for `end()`. -/
def find (m : Map β) (k : String) : Option β :=
  match m with
  | [] => none
  | (k', v) :: rest => if k' = k then some v else find rest k

/-- The member `insert`: adds the entry when the key is absent; the flag tells whether it did. -/
def insert (m : Map β) (k : String) (v : β) : Map β × Bool :=
  match m with
  | [] => ([(k, v)], true)
  | (k', v') :: rest =>
    if key_lt k k' then ((k, v) :: (k', v') :: rest, true)
    else if key_lt k' k then
      let r := insert rest k v
      ((k', v') :: r.1, r.2)
    else ((k', v') :: rest, false)

/-- The member `insert_or_assign`: adds the entry or overwrites the mapped value. -/
def insert_or_assign (m : Map β) (k : String) (v : β) : Map β :=
  match m with
  | [] => [(k, v)]
  | (k', v') :: rest =>
    if key_lt k k' then (k, v) :: (k', v') :: rest
    else if key_lt k' k then (k', v') :: insert_or_assign rest k v
    else (k', v) :: rest

/-- Assignment through an iterator: replace the mapped value of node `k`. -/
def assign (m : Map β) (k : String) (v : β) : Map β :=
  match m with
  | [] => []
  | (k', v') :: rest => if k' = k then (k', v) :: rest else (k', v') :: assign rest k v

/-- The increment `it++` from the node `k`: the node after it, or `end()`. -/
def next (m : Map β) (k : String) : Iter :=
  match m with
  | [] => .past_the_end
  | (k', _) :: rest => if k' = k then begin_ rest else next rest k

/-- The keys in iteration order. -/
def keys (m : Map β) : List String := m.map Prod.fst

end Map

/-! ## The variant `ArgTypes` -/

/-- The variant `ArgTypes`; the constructors follow the alternatives in order. -/
inductive ArgTypes where
  | string (v : String)
  | int (v : Int)
  | long (v : Int)
  | unsigned_long (v : Nat)
  | long_long (v : Int)
  | unsigned_long_long (v : Nat)
  | float (bits : Nat)
  | double (bits : Nat)
  | long_double (bits : Nat)
  | bool (v : Bool)
  deriving DecidableEq, Repr

/-- The member `std::variant::index`. -/
def ArgTypes.index : ArgTypes → Nat
  | .string _ => 0
  | .int _ => 1
  | .long _ => 2
  | .unsigned_long _ => 3
  | .long_long _ => 4
  | .unsigned_long_long _ => 5
  | .float _ => 6
  | .double _ => 7
  | .long_double _ => 8
  | .bool _ => 9

/-- The table `ArgTypeIndex`. -/
def ArgTypeIndex : List String :=
  ["string", "int", "long", "unsigned long", "long long", "unsigned long long",
   "float", "double", "long double", "bool"]

/-- The lookup `ArgTypeIndex[i]`; the index is always below ten where the source uses it. -/
def ArgTypeIndex_at (i : Nat) : String := ArgTypeIndex.getD i ""

/-! ## Exceptions and numeral parsing -/

/-- The exceptions that can leave a converter call. -/
inductive Exn where
  | invalid_argument (what : String)
  | out_of_range (what : String)
  | bad_function_call
  deriving DecidableEq, Repr

/-- What ends a call without a result: an exception that nothing catches, or the
use of an iterator of another container (undefined behaviour). -/
inductive Fault where
  | uncaught (e : Exn)
  | foreign_cursor
  deriving DecidableEq, Repr

/-- The C locale `isspace`. -/
def isspace (c : Char) : Bool :=
  c = ' ' || c = '\t' || c = '\n' || c = '\x0b' || c = '\x0c' || c = '\r'

/-- The decimal digits. -/
def isdigit (c : Char) : Bool := 48 ≤ c.toNat && c.toNat ≤ 57

/-- The value of a run of decimal digits, most significant first. -/
def digits_value (ds : List Char) : Nat :=
  ds.foldl (fun acc c => 10 * acc + (c.toNat - 48)) 0

/-- The subject sequence of `strtol` and its siblings in base ten: skip white
space, take an optional sign, then the longest run of digits. The result is the
sign and the magnitude, or nothing when there is no digit. What follows the
digits is ignored: the `std::sto*` wrappers are called without a position
argument. -/
def scan_numeral (s : String) : Option (Bool × Nat) :=
  let cs := s.data.dropWhile isspace
  let signed : Bool × List Char :=
    match cs with
    | c :: r => if c = '-' then (true, r) else if c = '+' then (false, r) else (false, cs)
    | [] => (false, cs)
  let ds := signed.2.takeWhile isdigit
  if ds.isEmpty then none else some (signed.1, digits_value ds)

/-- A signed conversion of width `w` bits: `std::stoi` (32), `std::stol`, `std::stoll` (64). -/
def sto_signed (what : String) (w : Nat) (s : String) : Except Exn Int :=
  match scan_numeral s with
  | none => .error (.invalid_argument what)
  | some (neg, m) =>
    let v : Int := if neg then -(m : Int) else (m : Int)
    if -(2 : Int) ^ (w - 1) ≤ v ∧ v < (2 : Int) ^ (w - 1) then .ok v
    else .error (.out_of_range what)

/-- An unsigned conversion of width `w` bits: `std::stoul`, `std::stoull`. A
magnitude that fits is accepted with either sign, a minus sign negating it
modulo `2 ^ w`, as `strtoul` does. -/
def sto_unsigned (what : String) (w : Nat) (s : String) : Except Exn Nat :=
  match scan_numeral s with
  | none => .error (.invalid_argument what)
  | some (neg, m) =>
    if m < 2 ^ w then .ok (if neg then (2 ^ w - m) % 2 ^ w else m)
    else .error (.out_of_range what)

/-- The three floating-point parsers of the platform; a value is its bit pattern. -/
structure FloatParsers where
  stof : String → Except Exn Nat
  stod : String → Except Exn Nat
  stold : String → Except Exn Nat

/-- The lambdas that `set_converter` can bind, one per supported type. -/
inductive Converter where
  | string | int | long | unsigned_long | long_long | unsigned_long_long
  | float | double | long_double | bool
  deriving DecidableEq, Repr

/-- The body of each lambda of `set_converter`. -/
def Converter.run (fp : FloatParsers) : Converter → String → Except Exn ArgTypes
  | .string, str => .ok (.string str)
  | .int, str => (sto_signed "stoi" 32 str).map .int
  | .long, str => (sto_signed "stol" 64 str).map .long
  | .unsigned_long, str => (sto_unsigned "stoul" 64 str).map .unsigned_long
  | .long_long, str => (sto_signed "stoll" 64 str).map .long_long
  | .unsigned_long_long, str => (sto_unsigned "stoull" 64 str).map .unsigned_long_long
  | .float, str => (fp.stof str).map .float
  | .double, str => (fp.stod str).map .double
  | .long_double, str => (fp.stold str).map .long_double
  | .bool, str =>
    if str = "true" || str = "yes" || str = "on" || str = "1" then .ok (.bool true)
    else if str = "false" || str = "no" || str = "off" || str = "0" then .ok (.bool false)
    else .error (.invalid_argument ("invalid boolean value \x60" ++ str ++ "\x27"))

/-! ## class Argument -/

/-- The data members of `Argument`. -/
structure Argument where
  m_type : String
  m_name : String
  m_long_argument : String
  m_short_argument : String
  m_description : String
  m_default_value : Option ArgTypes
  m_value : Option ArgTypes
  m_positional : Bool
  m_options : List String
  converter : Option Converter
  deriving DecidableEq, Repr

namespace Argument

/-- The five-parameter constructor. `m_positional` has no initialiser in the
source and is indeterminate until `validation` assigns it; the embedding starts
it at `false`. -/
def new (type name : String) (short_argument : String) (description : String)
    (default_value : Option ArgTypes) : Argument :=
  { m_type := type, m_name := name, m_long_argument := "",
    m_short_argument := short_argument, m_description := description,
    m_default_value := default_value, m_value := none, m_positional := false,
    m_options := [], converter := none }

/-- The message of both failing branches of `check_long_argument`. -/
def long_argument_error : String := "long argument must be start with two or none \x60-\x27"

/-- The message of `check_short_argument`. -/
def short_argument_error : String := "short argument must be start with single \x60-\x27"

/-- The member `check_long_argument`. -/
def check_long_argument (a : Argument) : Error × Argument :=
  if starts_with a.m_name "--" then
    if starts_with a.m_name "---" then (some long_argument_error, a)
    else
      (none, { a with m_positional := false
                      m_long_argument := a.m_name
                      m_name := erase_first a.m_name
                      m_options := a.m_options ++ [a.m_name] })
  else if starts_with a.m_name "-" then (some long_argument_error, a)
  else (none, { a with m_positional := true })

/-- The member `check_short_argument`. -/
def check_short_argument (a : Argument) : Error × Argument :=
  if !a.m_short_argument.data.isEmpty
      && (!starts_with a.m_short_argument "-" || starts_with a.m_short_argument "--") then
    (some short_argument_error, a)
  else (none, { a with m_options := a.m_options ++ [a.m_short_argument] })

/-- The member `is_valid_type`. -/
def is_valid_type (a : Argument) (value : ArgTypes) : Bool :=
  a.m_type = ArgTypeIndex_at value.index

/-- The member `set_converter`. -/
def set_converter (a : Argument) : Error × Argument :=
  if a.m_type = ArgTypeIndex_at 0 then (none, { a with converter := some .string })
  else if a.m_type = ArgTypeIndex_at 1 then (none, { a with converter := some .int })
  else if a.m_type = ArgTypeIndex_at 2 then (none, { a with converter := some .long })
  else if a.m_type = ArgTypeIndex_at 3 then (none, { a with converter := some .unsigned_long })
  else if a.m_type = ArgTypeIndex_at 4 then (none, { a with converter := some .long_long })
  else if a.m_type = ArgTypeIndex_at 5 then
    (none, { a with converter := some .unsigned_long_long })
  else if a.m_type = ArgTypeIndex_at 6 then (none, { a with converter := some .float })
  else if a.m_type = ArgTypeIndex_at 7 then (none, { a with converter := some .double })
  else if a.m_type = ArgTypeIndex_at 8 then (none, { a with converter := some .long_double })
  else if a.m_type = ArgTypeIndex_at 9 then (none, { a with converter := some .bool })
  else (some ("unsupported type \x60" ++ a.m_type ++ "\x27"), a)

/-- The member `validation`: the four checks in order, the first error returned. -/
def validation (a : Argument) : Error × Argument :=
  match check_long_argument a with
  | (some error, a1) => (some error, a1)
  | (none, a1) =>
    match check_short_argument a1 with
    | (some error, a2) => (some error, a2)
    | (none, a2) =>
      match set_converter a2 with
      | (some error, a3) => (some error, a3)
      | (none, a3) =>
        match a3.m_default_value with
        | some d =>
          if !is_valid_type a3 d then
            (some ("invalid default value type, must be \x27" ++ a3.m_type ++ "\x27"), a3)
          else (none, a3)
        | none => (none, a3)

/-- The member `set_value`. The two numeral exceptions are caught and turned
into an error message; `std::bad_function_call`, thrown when no converter was
bound, is not caught. -/
def set_value (fp : FloatParsers) (a : Argument) (new_value : String) :
    Except Exn (Error × Argument) :=
  match a.converter with
  | none => .error .bad_function_call
  | some c =>
    match c.run fp new_value with
    | .ok v => .ok (none, { a with m_value := some v })
    | .error (.invalid_argument w) => .ok (some ("converter error: " ++ w), a)
    | .error (.out_of_range w) => .ok (some ("converter error: " ++ w), a)
    | .error .bad_function_call => .error .bad_function_call

/-- The member template `value<T>` with the optional dereferenced, `T` given as
the index of the alternative. As written the member cannot be instantiated: it
applies `std::get<T>` to the `std::optional` itself (lines 224, 226), for which
there is no overload. This is the reading `std::get<T>(*m_value)`, whose
`std::bad_variant_access` the member catches; no property of the program is
drawn from its result. -/
def value (a : Argument) (T : Nat) : Option ArgTypes :=
  match a.m_value, a.m_default_value with
  | none, none => none
  | some v, _ => if v.index = T then some v else none
  | none, some d => if d.index = T then some d else none

/-- The member `is_positional`. -/
def is_positional (a : Argument) : Bool := a.m_positional

/-- The member `name`. -/
def name (a : Argument) : String := a.m_name

/-- The member `options`. -/
def options (a : Argument) : List String := a.m_options

/-- The member `type`. -/
def type (a : Argument) : String := a.m_type

end Argument

/-! ## class Command -/

/-- The data members of `Command`. -/
structure Command where
  m_name : String
  m_description : String
  m_optional_arguments : Map Argument
  m_positional_arguments : Map Argument
  m_positional_iterator : Iter
  m_active : Bool
  deriving DecidableEq, Repr

namespace Command

/-- The two-parameter constructor. The default member initialiser of
`m_positional_iterator` is `m_positional_arguments.begin()`, taken while the
collection is still empty. -/
def new (name description : String) : Command :=
  { m_name := name, m_description := description,
    m_optional_arguments := [], m_positional_arguments := [],
    m_positional_iterator := Map.begin_ ([] : Map Argument),
    m_active := false }

/-- The implicit copy constructor and copy assignment: every member is copied as
it is. The copied cursor still refers to the collection of the source object, so
in the copy it is an iterator of another container, whatever its position was. -/
def copy (c : Command) : Command := { c with m_positional_iterator := .foreign }

/-- The member `name`. -/
def name (c : Command) : String := c.m_name

/-- The member `activate`. -/
def activate (c : Command) : Command := { c with m_active := true }

/-- The member `is_active`. -/
def is_active (c : Command) : Bool := c.m_active

/-- The member `add_argument`; `replace` is passed explicitly (the source defaults it to true). -/
def add_argument (c : Command) (argument : Argument) (replace : Bool) : Error × Command :=
  if argument.is_positional then
    let r := Map.insert c.m_positional_arguments argument.name argument
    if !r.2 then
      if replace then
        (none, { c with m_positional_arguments :=
                  Map.insert_or_assign c.m_positional_arguments argument.name argument })
      else (some (argument.name ++ ": already exists"), c)
    else (none, { c with m_positional_arguments := r.1 })
  else
    let r := Map.insert c.m_optional_arguments argument.name argument
    if !r.2 then
      if replace then
        (none, { c with m_optional_arguments :=
                  Map.insert_or_assign c.m_optional_arguments argument.name argument })
      else (some (argument.name ++ ": already exists"), c)
    else (none, { c with m_optional_arguments := r.1 })

/-- The member `get_argument`. -/
def get_argument (c : Command) (name : String) : Option Argument :=
  match Map.find c.m_positional_arguments name with
  | some a => some a
  | none => Map.find c.m_optional_arguments name

/-- The range-for loop of `set_optional_argument_value` over the optional
arguments in key order. It returns the error, the collection with the selected
argument updated, and the queue `m_arguments_list`, which the caller passes by
reference. -/
def set_optional_scan (fp : FloatParsers) (argument_value : String) (queue : List String) :
    Map Argument → Except Exn (Error × Map Argument × List String)
  | [] => .ok (some ("unknown argument \x60" ++ argument_value ++ "\x27"), [], queue)
  | (k, argument) :: rest =>
    if is_in_vector argument.options argument_value then
      if argument.type = "bool" then
        match argument.set_value fp "true" with
        | .error e => .error e
        | .ok (_, argument1) => .ok (none, (k, argument1) :: rest, queue)
      else
        match queue with
        | [] => .ok (some (argument_value ++ ": expected argument"), (k, argument) :: rest, queue)
        | front :: popped =>
          if starts_with front "-" then
            .ok (some (argument_value ++ ": expected argument"), (k, argument) :: rest, queue)
          else
            match argument.set_value fp front with
            | .error e => .error e
            | .ok (some error, argument1) =>
              .ok (some (argument_value ++ ": " ++ error), (k, argument1) :: rest, queue)
            | .ok (none, argument1) => .ok (none, (k, argument1) :: rest, popped)
    else
      match set_optional_scan fp argument_value queue rest with
      | .error e => .error e
      | .ok (error, rest1, queue1) => .ok (error, (k, argument) :: rest1, queue1)

/-- The member `set_optional_argument_value`. -/
def set_optional_argument_value (fp : FloatParsers) (c : Command) (argument_value : String)
    (m_arguments_list : List String) : Except Exn (Error × Command × List String) :=
  match set_optional_scan fp argument_value m_arguments_list c.m_optional_arguments with
  | .error e => .error e
  | .ok (error, optional1, queue1) =>
    .ok (error, { c with m_optional_arguments := optional1 }, queue1)

/-- The member `set_positional_argument_value`. With the cursor of a copy the
comparison of line 341 is between iterators of two containers and line 344
dereferences the one that is not its own: undefined behaviour. A cursor
`node k` always names a node of the collection, since nodes are never erased;
for a key that is not there (not a state of the program) the embedding answers
as for `end()`. -/
def set_positional_argument_value (fp : FloatParsers) (c : Command) (argument_value : String) :
    Except Fault (Error × Command) :=
  match c.m_positional_iterator with
  | .foreign => .error .foreign_cursor
  | .past_the_end => .ok (some (argument_value ++ ": unknown argument"), c)
  | .node k =>
    match Map.find c.m_positional_arguments k with
    | none => .ok (some (argument_value ++ ": unknown argument"), c)
    | some argument =>
      match argument.set_value fp argument_value with
      | .error e => .error (.uncaught e)
      | .ok (some error, argument1) =>
        .ok (some (argument_value ++ ": " ++ error),
             { c with m_positional_arguments := Map.assign c.m_positional_arguments k argument1 })
      | .ok (none, argument1) =>
        .ok (none,
             { c with m_positional_arguments := Map.assign c.m_positional_arguments k argument1
                      m_positional_iterator := Map.next c.m_positional_arguments k })

end Command

/-! ## class ArgParser -/

/-- The data members of `ArgParser`. -/
structure ArgParser where
  m_raise_error : Bool
  m_print_usage : Bool
  m_application_name : String
  m_arguments_list : List String
  m_default_command : Command
  m_commands : Map Command
  m_active_command_name : String
  deriving DecidableEq, Repr

/-- How a run of `parse` ends. The local `std::shared_ptr<Command>` owns the
object it points to, a member of the parser that `new` did not allocate, so
each way out of `parse` is undefined behaviour or an uncaught exception:
* `delete_at_return value`: a `return` statement was reached with `value`; the
  destructor of the pointer then deletes the member, so the behaviour is
  undefined from there on and `value` is not promised to the caller;
* `delete_at_switch arg_str`: the assignment of line 398 for the command
  `arg_str` releases the previous pointer and deletes the member, before
  `activate()` and before the active command name is set;
* `fault f`: a delegated call ended in `f`. -/
inductive Ending where
  | delete_at_return (value : Error)
  | delete_at_switch (arg_str : String)
  | fault (f : Fault)
  deriving DecidableEq, Repr

namespace ArgParser

/-- The two-parameter constructor. Its body copy-assigns the default command
from the temporary `Command("default", ...)` (line 374). Both constructors have
no required parameter, so `ArgParser()` is ambiguous and every parser is built
by this one. -/
def new (raise_error print_usage : Bool) : ArgParser :=
  { m_raise_error := raise_error, m_print_usage := print_usage,
    m_application_name := "", m_arguments_list := [],
    m_default_command := (Command.new "default" "this is default command").copy,
    m_commands := [], m_active_command_name := "" }

/-- The member `add_argument`; the error of `Command::add_argument` is dropped. -/
def add_argument (p : ArgParser) (argument : Argument) : ArgParser :=
  { p with m_default_command := (p.m_default_command.add_argument argument true).2 }

/-- The member `add_command`: `insert_or_assign` stores a copy of the command. -/
def add_command (p : ArgParser) (command : Command) : ArgParser :=
  { p with m_commands := Map.insert_or_assign p.m_commands command.name command.copy }

/-- The object behind the local pointer `command` of `parse`: `none` is
`&m_default_command`, `some k` the entry of `m_commands` with key `k`. A run of
`parse` starts with the pointer at `&m_default_command` and never gets past the
assignment that would move it. -/
def pointee (p : ArgParser) (command : Option String) : Command :=
  match command with
  | none => p.m_default_command
  | some k => (Map.find p.m_commands k).getD p.m_default_command

/-- Writing through the pointer `command`. -/
def store (p : ArgParser) (command : Option String) (c : Command) : ArgParser :=
  match command with
  | none => { p with m_default_command := c }
  | some k => { p with m_commands := Map.assign p.m_commands k c }

/-- The while loop of `parse` up to the point where its behaviour stops being
defined, with the state of the parser at that point. One unit of fuel is spent
per iteration; an iteration pops at least one token, so the length of the queue
is enough fuel. The result `none` means that the fuel ran out with tokens
left. -/
def parse_loop (fp : FloatParsers) :
    Nat → Option String → ArgParser → Option (Ending × ArgParser)
  | 0, _, p => if p.m_arguments_list.isEmpty then some (.delete_at_return none, p) else none
  | fuel + 1, command, p =>
    match p.m_arguments_list with
    | [] => some (.delete_at_return none, p)
    | arg_str :: popped =>
      let p1 := { p with m_arguments_list := popped }
      if starts_with arg_str "-" then
        match (pointee p1 command).set_optional_argument_value fp arg_str popped with
        | .error e => some (.fault (.uncaught e), p1)
        | .ok (some error, c1, queue1) =>
          some (.delete_at_return (some error),
            store { p1 with m_arguments_list := queue1 } command c1)
        | .ok (none, c1, queue1) =>
          parse_loop fp fuel command (store { p1 with m_arguments_list := queue1 } command c1)
      else if !p1.m_active_command_name.data.isEmpty then
        match (pointee p1 command).set_positional_argument_value fp arg_str with
        | .error f => some (.fault f, p1)
        | .ok (some error, c1) => some (.delete_at_return (some error), store p1 command c1)
        | .ok (none, c1) => parse_loop fp fuel command (store p1 command c1)
      else
        match Map.find p1.m_commands arg_str with
        | some _ => some (.delete_at_switch arg_str, p1)
        | none =>
          match (pointee p1 command).set_positional_argument_value fp arg_str with
          | .error f => some (.fault f, p1)
          | .ok (some error, c1) => some (.delete_at_return (some error), store p1 command c1)
          | .ok (none, c1) => parse_loop fp fuel command (store p1 command c1)

/-- The member `parse(argc, argv)` with `argv[0] = argv0` and the arguments
`argv[1 .. argc)` given as `args`; the local pointer starts at
`&m_default_command`. -/
def parse (fp : FloatParsers) (p : ArgParser) (argv0 : String) (args : List String) :
    Option (Ending × ArgParser) :=
  let p1 := { p with m_application_name := argv0 }
  let p2 := if args.isEmpty then p1 else { p1 with m_arguments_list := args }
  parse_loop fp p2.m_arguments_list.length none p2

/-- The member `get_active_command_name`. -/
def get_active_command_name (p : ArgParser) : String := p.m_active_command_name

end ArgParser

/-! ## Definitions used to state the properties -/

/-- The converter that `set_converter` binds for a type name, if any. -/
def converter_for (t : String) : Option Converter :=
  if t = "string" then some .string
  else if t = "int" then some .int
  else if t = "long" then some .long
  else if t = "unsigned long" then some .unsigned_long
  else if t = "long long" then some .long_long
  else if t = "unsigned long long" then some .unsigned_long_long
  else if t = "float" then some .float
  else if t = "double" then some .double
  else if t = "long double" then some .long_double
  else if t = "bool" then some .bool
  else none

/-- The number of dashes a string starts with. -/
def leading_dashes (s : String) : Nat := (s.data.takeWhile (fun c => c = '-')).length

/-- The names of the registered commands whose active flag is set, in key order. -/
def flagged (m : Map Command) : List String :=
  (m.filter (fun e => e.2.m_active)).map Prod.fst

/-- The alternative of `ArgTypes` that a converter produces. -/
def Converter.index : Converter → Nat
  | .string => 0
  | .int => 1
  | .long => 2
  | .unsigned_long => 3
  | .long_long => 4
  | .unsigned_long_long => 5
  | .float => 6
  | .double => 7
  | .long_double => 8
  | .bool => 9

/-- A sequence of `set_value` calls on one argument, each result discarded. An
uncaught exception ends the sequence. -/
def Argument.set_values (fp : FloatParsers) (a : Argument) : List String → Argument
  | [] => a
  | s :: rest =>
    match a.set_value fp s with
    | .ok (_, a1) => Argument.set_values fp a1 rest
    | .error _ => a

/-- A command after a sequence of `add_argument` calls, each with its `replace` flag. -/
def Command.declare (c : Command) (arguments : List (Argument × Bool)) : Command :=
  arguments.foldl (fun c1 a => (c1.add_argument a.1 a.2).2) c

/-- The token consists of white space, an optional sign, a non-empty run of
decimal digits of value `m`, and a rest that does not start with a digit;
`neg` tells whether the sign is a minus. -/
def leading_numeral (s : String) (neg : Bool) (m : Nat) : Prop :=
  ∃ ws sign ds tail : List Char,
    s.data = ws ++ sign ++ ds ++ tail
    ∧ (∀ c ∈ ws, isspace c = true)
    ∧ ((sign = [] ∧ neg = false) ∨ (sign = ['-'] ∧ neg = true) ∨ (sign = ['+'] ∧ neg = false))
    ∧ ds ≠ [] ∧ (∀ c ∈ ds, isdigit c = true)
    ∧ (∀ c ∈ tail.head?, isdigit c = false)
    ∧ m = digits_value ds

/-- The entries of a map are in strictly ascending key order. -/
def Map.sorted {β : Type} (m : Map β) : Prop :=
  List.Pairwise (fun a b => key_lt a.1 b.1 = true) m

/-- The invariant of a command whose arguments all went through `validation`:
both collections are sorted maps, the names of the positional arguments have no
leading dash and the names of the optional ones have exactly one. -/
def Command.well_formed (c : Command) : Prop :=
  Map.sorted c.m_positional_arguments ∧ Map.sorted c.m_optional_arguments
    ∧ (∀ k ∈ Map.keys c.m_positional_arguments, leading_dashes k = 0)
    ∧ (∀ k ∈ Map.keys c.m_optional_arguments, leading_dashes k = 1)

/-- The collection that `add_argument` routes an argument to. -/
def Command.collection_of (c : Command) (argument : Argument) : Map Argument :=
  if argument.is_positional then c.m_positional_arguments else c.m_optional_arguments

/-- The while loop of `parse` with a trace. Next to the result of `parse_loop`
it returns where the local pointer `command` is at the end and the tokens that
were passed to `set_optional_argument_value`, in order. -/
def ArgParser.parse_loop_traced (fp : FloatParsers) :
    Nat → Option String → ArgParser →
      Option ((Ending × ArgParser) × Option String × List String)
  | 0, command, p =>
    if p.m_arguments_list.isEmpty then some ((.delete_at_return none, p), command, []) else none
  | fuel + 1, command, p =>
    match p.m_arguments_list with
    | [] => some ((.delete_at_return none, p), command, [])
    | arg_str :: popped =>
      let p1 := { p with m_arguments_list := popped }
      if starts_with arg_str "-" then
        match (ArgParser.pointee p1 command).set_optional_argument_value fp arg_str popped with
        | .error e => some ((.fault (.uncaught e), p1), command, [arg_str])
        | .ok (some error, c1, queue1) =>
          some ((.delete_at_return (some error),
            ArgParser.store { p1 with m_arguments_list := queue1 } command c1), command, [arg_str])
        | .ok (none, c1, queue1) =>
          (ArgParser.parse_loop_traced fp fuel command
            (ArgParser.store { p1 with m_arguments_list := queue1 } command c1)).map
            (fun r => (r.1, r.2.1, arg_str :: r.2.2))
      else if !p1.m_active_command_name.data.isEmpty then
        match (ArgParser.pointee p1 command).set_positional_argument_value fp arg_str with
        | .error f => some ((.fault f, p1), command, [])
        | .ok (some error, c1) =>
          some ((.delete_at_return (some error), ArgParser.store p1 command c1), command, [])
        | .ok (none, c1) =>
          ArgParser.parse_loop_traced fp fuel command (ArgParser.store p1 command c1)
      else
        match Map.find p1.m_commands arg_str with
        | some _ => some ((.delete_at_switch arg_str, p1), command, [])
        | none =>
          match (ArgParser.pointee p1 command).set_positional_argument_value fp arg_str with
          | .error f => some ((.fault f, p1), command, [])
          | .ok (some error, c1) =>
            some ((.delete_at_return (some error), ArgParser.store p1 command c1), command, [])
          | .ok (none, c1) =>
            ArgParser.parse_loop_traced fp fuel command (ArgParser.store p1 command c1)

/-- The member `parse` with the trace of its loop. -/
def ArgParser.parse_traced (fp : FloatParsers) (p : ArgParser) (argv0 : String)
    (args : List String) :
    Option ((Ending × ArgParser) × Option String × List String) :=
  let p1 := { p with m_application_name := argv0 }
  let p2 := if args.isEmpty then p1 else { p1 with m_arguments_list := args }
  ArgParser.parse_loop_traced fp p2.m_arguments_list.length none p2

/-! ## Sample objects -/

/-- A platform whose floating-point parsers reject every token. -/
def no_floats : FloatParsers :=
  { stof := fun _ => .error (.invalid_argument "stof"),
    stod := fun _ => .error (.invalid_argument "stod"),
    stold := fun _ => .error (.invalid_argument "stold") }

/-- The argument `Argument(type, name)` after `validation`. -/
def validated (type name : String) : Argument :=
  (Argument.validation (Argument.new type name "" "---" none)).2

/-- A parser with the string positionals `a` and `b` declared in that order. -/
def parser_a_b : ArgParser :=
  ((ArgParser.new true true).add_argument (validated "string" "a")).add_argument
    (validated "string" "b")

/-- The command `build` with the string positional `target`. -/
def command_build : Command :=
  ((Command.new "build" "build the target").add_argument (validated "string" "target") true).2

/-- A parser with the command `build` registered. -/
def parser_build : ArgParser := (ArgParser.new true true).add_command command_build

/-- The argument `Argument(type, name, short_argument)` after `validation`. -/
def validated_short (type name short_argument : String) : Argument :=
  (Argument.validation (Argument.new type name short_argument "---" none)).2

/-- A command with the single option `--count` of type int. -/
def command_count : Command :=
  ((Command.new "default" "this is default command").add_argument
    (validated "int" "--count") true).2

/-- A command with the single option `--flag` of type bool. -/
def command_flag : Command :=
  ((Command.new "default" "this is default command").add_argument
    (validated "bool" "--flag") true).2

/-- A command whose options `--alpha` (bool) and `--beta` (int) share the short alias `-v`. -/
def command_alpha_beta : Command :=
  ((((Command.new "default" "this is default command").add_argument
    (validated_short "bool" "--alpha" "-v") true).2).add_argument
    (validated_short "int" "--beta" "-v") true).2

/-- A command whose options `--quiet` and `--verbose`, both bool, share the short alias `-v`. -/
def command_quiet_verbose : Command :=
  ((((Command.new "default" "this is default command").add_argument
    (validated_short "bool" "--quiet" "-v") true).2).add_argument
    (validated_short "bool" "--verbose" "-v") true).2

/-- A command holding the option `--flag` of type bool whose `validation` failed
on the short alias `f`, so that no converter is bound. -/
def command_unbound_flag : Command :=
  ((Command.new "default" "this is default command").add_argument
    (validated_short "bool" "--flag" "f") true).2

/-- A parser whose default command declares the option `--count` of type int. -/
def parser_count : ArgParser :=
  (ArgParser.new true true).add_argument (validated "int" "--count")

/-- A command with the string positionals `a` and `b` declared in that order. -/
def command_a_b : Command :=
  Command.declare (Command.new "copy" "copy a to b")
    [(validated "string" "a", true), (validated "string" "b", true)]

/-- A parser whose default command declares `--verbose` and whose command `build`
declares `--release`, both of type bool. -/
def parser_verbose_release : ArgParser :=
  ((ArgParser.new true true).add_argument (validated "bool" "--verbose")).add_command
    ((Command.new "build" "build the target").add_argument (validated "bool" "--release") true).2

/-! ## Properties of `Argument` -/

theorem ArgTypeIndex_at_values :
    ArgTypeIndex_at 0 = "string" ∧ ArgTypeIndex_at 1 = "int" ∧ ArgTypeIndex_at 2 = "long"
    ∧ ArgTypeIndex_at 3 = "unsigned long" ∧ ArgTypeIndex_at 4 = "long long"
    ∧ ArgTypeIndex_at 5 = "unsigned long long" ∧ ArgTypeIndex_at 6 = "float"
    ∧ ArgTypeIndex_at 7 = "double" ∧ ArgTypeIndex_at 8 = "long double"
    ∧ ArgTypeIndex_at 9 = "bool" := by
  refine ⟨rfl, rfl, rfl, rfl, rfl, rfl, rfl, rfl, rfl, rfl⟩

theorem set_converter_eq (a : Argument) :
    Argument.set_converter a =
      match converter_for a.m_type with
      | some c => (none, { a with converter := some c })
      | none => (some ("unsupported type \x60" ++ a.m_type ++ "\x27"), a) := by
  obtain ⟨e0, e1, e2, e3, e4, e5, e6, e7, e8, e9⟩ := ArgTypeIndex_at_values
  unfold Argument.set_converter converter_for
  rw [e0, e1, e2, e3, e4, e5, e6, e7, e8, e9]
  by_cases h0 : a.m_type = "string"
  · rw [if_pos h0, if_pos h0]
  rw [if_neg h0, if_neg h0]
  by_cases h1 : a.m_type = "int"
  · rw [if_pos h1, if_pos h1]
  rw [if_neg h1, if_neg h1]
  by_cases h2 : a.m_type = "long"
  · rw [if_pos h2, if_pos h2]
  rw [if_neg h2, if_neg h2]
  by_cases h3 : a.m_type = "unsigned long"
  · rw [if_pos h3, if_pos h3]
  rw [if_neg h3, if_neg h3]
  by_cases h4 : a.m_type = "long long"
  · rw [if_pos h4, if_pos h4]
  rw [if_neg h4, if_neg h4]
  by_cases h5 : a.m_type = "unsigned long long"
  · rw [if_pos h5, if_pos h5]
  rw [if_neg h5, if_neg h5]
  by_cases h6 : a.m_type = "float"
  · rw [if_pos h6, if_pos h6]
  rw [if_neg h6, if_neg h6]
  by_cases h7 : a.m_type = "double"
  · rw [if_pos h7, if_pos h7]
  rw [if_neg h7, if_neg h7]
  by_cases h8 : a.m_type = "long double"
  · rw [if_pos h8, if_pos h8]
  rw [if_neg h8, if_neg h8]
  by_cases h9 : a.m_type = "bool"
  · rw [if_pos h9, if_pos h9]
  rw [if_neg h9, if_neg h9]

theorem converter_for_ne_none_iff (t : String) :
    converter_for t ≠ none ↔ t ∈ ArgTypeIndex := by
  unfold converter_for ArgTypeIndex
  simp only [List.mem_cons, List.mem_singleton, List.not_mem_nil, or_false]
  split_ifs <;> simp_all

theorem check_long_argument_keeps (a : Argument) :
    (Argument.check_long_argument a).2.m_type = a.m_type
    ∧ (Argument.check_long_argument a).2.converter = a.converter
    ∧ (Argument.check_long_argument a).2.m_value = a.m_value
    ∧ (Argument.check_long_argument a).2.m_default_value = a.m_default_value
    ∧ (Argument.check_long_argument a).2.m_short_argument = a.m_short_argument := by
  unfold Argument.check_long_argument
  split_ifs <;> simp

theorem check_short_argument_keeps (a : Argument) :
    (Argument.check_short_argument a).2.m_type = a.m_type
    ∧ (Argument.check_short_argument a).2.converter = a.converter
    ∧ (Argument.check_short_argument a).2.m_value = a.m_value
    ∧ (Argument.check_short_argument a).2.m_default_value = a.m_default_value
    ∧ (Argument.check_short_argument a).2.m_positional = a.m_positional
    ∧ (Argument.check_short_argument a).2.m_name = a.m_name := by
  unfold Argument.check_short_argument
  split_ifs <;> simp

/-- The four steps of `validation` when it succeeds. -/
theorem validation_ok_steps (a0 a : Argument) (h : Argument.validation a0 = (none, a)) :
    ∃ a1 a2 c, Argument.check_long_argument a0 = (none, a1)
      ∧ Argument.check_short_argument a1 = (none, a2)
      ∧ converter_for a2.m_type = some c
      ∧ a = { a2 with converter := some c }
      ∧ (∀ d, a2.m_default_value = some d → Argument.is_valid_type a d = true) := by
  unfold Argument.validation at h
  generalize h1 : Argument.check_long_argument a0 = r1 at h
  obtain ⟨e1, a1⟩ := r1
  cases e1 with
  | some e => simp at h
  | none =>
    simp only at h
    generalize h2 : Argument.check_short_argument a1 = r2 at h
    obtain ⟨e2, a2⟩ := r2
    cases e2 with
    | some e => simp at h
    | none =>
      simp only at h
      rw [set_converter_eq] at h
      cases hc : converter_for a2.m_type with
      | none => rw [hc] at h; simp at h
      | some c =>
        rw [hc] at h
        simp only at h
        refine ⟨a1, a2, c, rfl, h2, hc, ?_, ?_⟩
        · cases hd : a2.m_default_value with
          | none => rw [hd] at h; exact (Prod.mk.inj h).2.symm
          | some d =>
            rw [hd] at h
            simp only at h
            split_ifs at h with hv
            · simp at h
            · exact (Prod.mk.inj h).2.symm
        · intro d hd
          rw [hd] at h
          simp only at h
          split_ifs at h with hv
          · simp at h
          · have ha := (Prod.mk.inj h).2
            subst ha
            simpa using hv

/-- A successful `validation` keeps the type and the values and binds the converter of the type. -/
theorem validation_converter (a0 a : Argument) (h : Argument.validation a0 = (none, a)) :
    a.m_type = a0.m_type ∧ a.converter = converter_for a.m_type
      ∧ converter_for a.m_type ≠ none ∧ a.m_value = a0.m_value
      ∧ a.m_default_value = a0.m_default_value := by
  obtain ⟨a1, a2, c, h1, h2, h3, h4, -⟩ := validation_ok_steps a0 a h
  have k1 := check_long_argument_keeps a0
  have k2 := check_short_argument_keeps a1
  rw [h1] at k1
  rw [h2] at k2
  simp only at k1 k2
  subst h4
  simp only
  refine ⟨by rw [k2.1, k1.1], by rw [h3], by rw [h3]; simp, by rw [k2.2.2.1, k1.2.2.1],
    by rw [k2.2.2.2.1, k1.2.2.2.1]⟩

/-- Claim C5: on an argument of type bool that `validation` accepted, `set_value s`
stores true exactly for the literals true, yes, on, 1, stores false exactly for
false, no, off, 0, and for every other string returns the conversion error and
leaves the argument as it was. -/
theorem bool_conversion_table (fp : FloatParsers) (a0 a : Argument)
    (hv : Argument.validation a0 = (none, a)) (ht : a.type = "bool") (s : String) :
    (a.set_value fp s = .ok (none, { a with m_value := some (.bool true) })
        ↔ s ∈ ["true", "yes", "on", "1"])
    ∧ (a.set_value fp s = .ok (none, { a with m_value := some (.bool false) })
        ↔ s ∈ ["false", "no", "off", "0"])
    ∧ (s ∉ ["true", "yes", "on", "1"] → s ∉ ["false", "no", "off", "0"] →
        a.set_value fp s
          = .ok (some ("converter error: " ++ ("invalid boolean value \x60" ++ s ++ "\x27")),
              a)) := by
  obtain ⟨-, hc, -, -, -⟩ := validation_converter a0 a hv
  have ht1 : a.m_type = "bool" := ht
  rw [ht1] at hc
  have hc1 : a.converter = some .bool := by rw [hc]; decide
  unfold Argument.set_value
  simp only [hc1, Converter.run, List.mem_cons, List.mem_singleton, List.not_mem_nil, or_false,
    Bool.or_eq_true, decide_eq_true_eq]
  by_cases h1 : s = "true" ∨ s = "yes" ∨ s = "on" ∨ s = "1"
  · have h2 : ¬ (s = "false" ∨ s = "no" ∨ s = "off" ∨ s = "0") := by
      rcases h1 with h | h | h | h <;> subst h <;> decide
    have h1' : ((s = "true" ∨ s = "yes") ∨ s = "on") ∨ s = "1" := by tauto
    simp [h1, h2, h1']
  · have h1' : ¬ (((s = "true" ∨ s = "yes") ∨ s = "on") ∨ s = "1") := by tauto
    by_cases h2 : s = "false" ∨ s = "no" ∨ s = "off" ∨ s = "0"
    · have h2' : ((s = "false" ∨ s = "no") ∨ s = "off") ∨ s = "0" := by tauto
      simp [h1, h2, h1', h2']
    · have h2' : ¬ (((s = "false" ∨ s = "no") ∨ s = "off") ∨ s = "0") := by tauto
      simp [h1, h2, h1', h2']

theorem prefix_dashes (l : List Char) :
    (['-'].isPrefixOf l = true ↔ 1 ≤ (l.takeWhile (fun c => c = '-')).length)
    ∧ (['-', '-'].isPrefixOf l = true ↔ 2 ≤ (l.takeWhile (fun c => c = '-')).length)
    ∧ (['-', '-', '-'].isPrefixOf l = true ↔ 3 ≤ (l.takeWhile (fun c => c = '-')).length) := by
  have key : ∀ (a : Char) (t : List Char), ¬ a = '-' →
      (List.takeWhile (fun c => decide (c = '-')) (a :: t)) = [] := by
    intro a t h; simp [List.takeWhile, h]
  have key2 : ∀ (t : List Char),
      (List.takeWhile (fun c => decide (c = '-')) ('-' :: t))
        = '-' :: List.takeWhile (fun c => decide (c = '-')) t := by
    intro t; simp [List.takeWhile]
  have pre : ∀ (a : Char) (p t : List Char), ¬ a = '-' →
      ('-' :: p).isPrefixOf (a :: t) = false := by
    intro a p t h
    have h2 : ¬ '-' = a := fun e => h e.symm
    simp [List.isPrefixOf, h2]
  have pre2 : ∀ (p t : List Char), ('-' :: p).isPrefixOf ('-' :: t) = p.isPrefixOf t := by
    intro p t; simp [List.isPrefixOf]
  rcases l with _ | ⟨a, l⟩
  · simp [List.isPrefixOf]
  by_cases ha : a = '-'
  swap
  · simp [key a l ha, pre a _ l ha]
  subst ha
  rw [key2, pre2, pre2, pre2]
  rcases l with _ | ⟨b, l⟩
  · simp [List.isPrefixOf]
  by_cases hb : b = '-'
  swap
  · simp [key b l hb, pre b _ l hb]
  subst hb
  rw [key2, pre2, pre2]
  rcases l with _ | ⟨c, l⟩
  · simp [List.isPrefixOf]
  by_cases hc : c = '-'
  swap
  · simp [key c l hc, pre c _ l hc]
  subst hc
  rw [key2, pre2]
  simp

theorem starts_with_dashes (s : String) :
    (starts_with s "-" = true ↔ 1 ≤ leading_dashes s)
    ∧ (starts_with s "--" = true ↔ 2 ≤ leading_dashes s)
    ∧ (starts_with s "---" = true ↔ 3 ≤ leading_dashes s) :=
  prefix_dashes s.data

theorem check_short_argument_ok (a : Argument)
    (hshort : a.m_short_argument = "" ∨ leading_dashes a.m_short_argument = 1) :
    Argument.check_short_argument a
      = (none, { a with m_options := a.m_options ++ [a.m_short_argument] }) := by
  unfold Argument.check_short_argument
  rcases hshort with h | h
  · rw [h]; rfl
  · have h1 : starts_with a.m_short_argument "-" = true :=
      (starts_with_dashes _).1.2 (by omega)
    have h2 : starts_with a.m_short_argument "--" = false := by
      rw [Bool.eq_false_iff]
      intro h3
      have := (starts_with_dashes _).2.1.1 h3
      omega
    simp [h1, h2]

theorem validation_after_long (a a1 : Argument)
    (h1 : Argument.check_long_argument a = (none, a1))
    (htype : a.m_type ∈ ArgTypeIndex)
    (hshort : a.m_short_argument = "" ∨ leading_dashes a.m_short_argument = 1)
    (hdef : ∀ d, a.m_default_value = some d → ArgTypeIndex_at d.index = a.m_type) :
    (Argument.validation a).1 = none
      ∧ (Argument.validation a).2.m_positional = a1.m_positional := by
  have k1 := check_long_argument_keeps a
  rw [h1] at k1
  simp only at k1
  obtain ⟨kt, -, -, kd, ks⟩ := k1
  have h2 := check_short_argument_ok a1 (by rw [ks]; exact hshort)
  have hc : converter_for a1.m_type ≠ none := by
    rw [kt]; exact (converter_for_ne_none_iff _).2 htype
  obtain ⟨c, hc⟩ := Option.ne_none_iff_exists'.1 hc
  unfold Argument.validation
  rw [h1]
  simp only
  rw [h2]
  simp only
  rw [set_converter_eq]
  simp only
  rw [hc]
  simp only
  cases hd : a1.m_default_value with
  | none => simp
  | some d =>
    have := hdef d (by rw [← kd]; exact hd)
    simp [Argument.is_valid_type, this, kt]

/-- Claim C7: with a supported type, an acceptable short alias and no mismatching
default, `validation` returns the long-argument error when the name starts with
exactly one dash or with three or more, succeeds with `is_positional` false when
it starts with exactly two, and succeeds with `is_positional` true when it has
no leading dash. -/
theorem validation_name_shape (a : Argument)
    (htype : a.m_type ∈ ArgTypeIndex)
    (hshort : a.m_short_argument = "" ∨ leading_dashes a.m_short_argument = 1)
    (hdef : ∀ d, a.m_default_value = some d → ArgTypeIndex_at d.index = a.m_type) :
    ((leading_dashes a.m_name = 1 ∨ 3 ≤ leading_dashes a.m_name) →
        (Argument.validation a).1 = some Argument.long_argument_error)
    ∧ (leading_dashes a.m_name = 2 →
        (Argument.validation a).1 = none ∧ (Argument.validation a).2.is_positional = false)
    ∧ (leading_dashes a.m_name = 0 →
        (Argument.validation a).1 = none ∧ (Argument.validation a).2.is_positional = true) := by
  obtain ⟨d1, d2, d3⟩ := starts_with_dashes a.m_name
  refine ⟨?_, ?_, ?_⟩
  · intro h
    have hl : Argument.check_long_argument a = (some Argument.long_argument_error, a) := by
      unfold Argument.check_long_argument
      rcases h with h | h
      · have e1 : starts_with a.m_name "-" = true := d1.2 (by omega)
        have e2 : starts_with a.m_name "--" = false := by
          rw [Bool.eq_false_iff]; intro h3; have := d2.1 h3; omega
        simp [e1, e2]
      · have e2 : starts_with a.m_name "--" = true := d2.2 (by omega)
        have e3 : starts_with a.m_name "---" = true := d3.2 h
        simp [e2, e3]
    unfold Argument.validation
    rw [hl]
  · intro h
    have e2 : starts_with a.m_name "--" = true := d2.2 (by omega)
    have e3 : starts_with a.m_name "---" = false := by
      rw [Bool.eq_false_iff]; intro h3; have := d3.1 h3; omega
    have hl : Argument.check_long_argument a
        = (none, { a with m_positional := false
                          m_long_argument := a.m_name
                          m_name := erase_first a.m_name
                          m_options := a.m_options ++ [a.m_name] }) := by
      unfold Argument.check_long_argument
      simp [e2, e3]
    exact validation_after_long a _ hl htype hshort hdef
  · intro h
    have e1 : starts_with a.m_name "-" = false := by
      rw [Bool.eq_false_iff]; intro h3; have := d1.1 h3; omega
    have e2 : starts_with a.m_name "--" = false := by
      rw [Bool.eq_false_iff]; intro h3; have := d2.1 h3; omega
    have hl : Argument.check_long_argument a = (none, { a with m_positional := true }) := by
      unfold Argument.check_long_argument
      simp [e1, e2]
    exact validation_after_long a _ hl htype hshort hdef

theorem bool_conversion_table_witness :
    Argument.validation (Argument.new "bool" "--flag" "" "---" none)
        = (none, validated "bool" "--flag")
      ∧ (validated "bool" "--flag").type = "bool"
      ∧ ((validated "bool" "--flag").set_value no_floats "True"
          = .ok (some ("converter error: " ++ ("invalid boolean value \x60" ++ "True" ++ "\x27")),
              validated "bool" "--flag")) :=
  ⟨rfl, rfl,
    (bool_conversion_table no_floats (Argument.new "bool" "--flag" "" "---" none)
      (validated "bool" "--flag") rfl rfl "True").2.2 (by decide) (by decide)⟩

theorem validation_name_shape_witness :
    (Argument.validation (Argument.new "int" "--x" "-x" "---" (some (.int 3)))).1 = none
      ∧ (Argument.validation (Argument.new "int" "--x" "-x" "---"
          (some (.int 3)))).2.is_positional = false :=
  (validation_name_shape (Argument.new "int" "--x" "-x" "---" (some (.int 3)))
    (by decide) (Or.inr (by decide))
    (by intro d hd; cases hd; rfl)).2.1 (by decide)

/-! ## Numerals and their decimal rendering -/

theorem digitChar_digit (k : Nat) (h : k < 10) :
    isdigit (Nat.digitChar k) = true ∧ (Nat.digitChar k).toNat - 48 = k
      ∧ isspace (Nat.digitChar k) = false ∧ Nat.digitChar k ≠ '-' ∧ Nat.digitChar k ≠ '+' := by
  interval_cases k <;> decide

theorem digits_value_append (l : List Char) (d : Char) :
    digits_value (l ++ [d]) = 10 * digits_value l + (d.toNat - 48) := by
  simp [digits_value, List.foldl_append]

theorem toDigitsCore_spec (fuel : Nat) : ∀ (n : Nat) (ds : List Char), n < fuel →
    ∃ l, Nat.toDigitsCore 10 fuel n ds = l ++ ds ∧ l ≠ []
      ∧ (∀ c ∈ l, isdigit c = true) ∧ digits_value l = n := by
  induction fuel with
  | zero => intro n ds h; omega
  | succ fuel ih =>
    intro n ds h
    obtain ⟨hd1, hd2, -, -, -⟩ := digitChar_digit (n % 10) (Nat.mod_lt _ (by decide))
    unfold Nat.toDigitsCore
    by_cases h0 : n / 10 = 0
    · simp only [h0, if_true]
      refine ⟨[Nat.digitChar (n % 10)], rfl, by simp, ?_, ?_⟩
      · intro c hc
        simp only [List.mem_singleton] at hc
        rw [hc]; exact hd1
      · have : digits_value [Nat.digitChar (n % 10)] = (Nat.digitChar (n % 10)).toNat - 48 := by
          simp [digits_value]
        rw [this, hd2]
        omega
    · simp only [h0, if_false]
      obtain ⟨l, hl, -, hdig, hval⟩ := ih (n / 10) (Nat.digitChar (n % 10) :: ds) (by omega)
      refine ⟨l ++ [Nat.digitChar (n % 10)], by rw [hl]; simp, by simp, ?_, ?_⟩
      · intro c hc
        rcases List.mem_append.1 hc with hc | hc
        · exact hdig c hc
        · simp only [List.mem_singleton] at hc
          rw [hc]; exact hd1
      · rw [digits_value_append, hval, hd2]
        omega

/-- The decimal rendering of a natural number is a non-empty run of digits with that value. -/
theorem repr_digits (n : Nat) :
    (Nat.repr n).data ≠ [] ∧ (∀ c ∈ (Nat.repr n).data, isdigit c = true)
      ∧ digits_value (Nat.repr n).data = n := by
  obtain ⟨l, hl, hne, hdig, hval⟩ := toDigitsCore_spec (n + 1) n [] (by omega)
  have : (Nat.repr n).data = l := by
    simp [Nat.repr, Nat.toDigits, hl, List.asString]
  rw [this]
  exact ⟨hne, hdig, hval⟩

theorem isdigit_facts (c : Char) (h : isdigit c = true) :
    isspace c = false ∧ c ≠ '-' ∧ c ≠ '+' := by
  refine ⟨?_, ?_, ?_⟩
  · rw [Bool.eq_false_iff]
    intro hs
    simp only [isspace, Bool.or_eq_true, decide_eq_true_eq] at hs
    rcases hs with ((((hs | hs) | hs) | hs) | hs) | hs <;> subst hs <;> exact absurd h (by decide)
  · intro hs; subst hs; exact absurd h (by decide)
  · intro hs; subst hs; exact absurd h (by decide)

theorem takeWhile_all (l : List Char) (h : ∀ c ∈ l, isdigit c = true) :
    l.takeWhile isdigit = l := by
  induction l with
  | nil => rfl
  | cons c l ih =>
    simp only [List.takeWhile, h c (List.mem_cons_self _ _)]
    rw [ih (fun c hc => h c (List.mem_cons_of_mem _ hc))]

theorem scan_numeral_repr (n : Nat) : scan_numeral (Nat.repr n) = some (false, n) := by
  obtain ⟨hne, hdig, hval⟩ := repr_digits n
  unfold scan_numeral
  generalize (Nat.repr n).data = l at hne hdig hval
  cases l with
  | nil => exact absurd rfl hne
  | cons c l =>
    obtain ⟨h1, h2, h3⟩ := isdigit_facts c (hdig c (List.mem_cons_self _ _))
    have hdrop : List.dropWhile isspace (c :: l) = c :: l := by
      simp [List.dropWhile, h1]
    simp only [hdrop, h2, h3, if_false]
    rw [takeWhile_all _ hdig]
    simp [hval]

theorem scan_numeral_neg_repr (n : Nat) :
    scan_numeral ("-" ++ Nat.repr n) = some (true, n) := by
  obtain ⟨hne, hdig, hval⟩ := repr_digits n
  unfold scan_numeral
  have hd : ("-" ++ Nat.repr n).data = '-' :: (Nat.repr n).data := by
    rw [String.data_append]; rfl
  rw [hd]
  generalize (Nat.repr n).data = l at hne hdig hval
  have hdrop : List.dropWhile isspace ('-' :: l) = '-' :: l := by
    simp [List.dropWhile, show isspace '-' = false from by decide]
  simp only [hdrop, if_true]
  rw [takeWhile_all _ hdig]
  cases l with
  | nil => exact absurd rfl hne
  | cons c l => simp [hval]


theorem sto_signed_repr (what : String) (w : Nat) (v : Int)
    (hlo : -(2 : Int) ^ (w - 1) ≤ v) (hhi : v < (2 : Int) ^ (w - 1)) :
    sto_signed what w (Int.repr v) = .ok v := by
  unfold sto_signed
  cases v with
  | ofNat m =>
    simp only [Int.repr, scan_numeral_repr]
    simp only [Bool.false_eq_true, if_false]
    rw [if_pos ⟨hlo, hhi⟩]
    rfl
  | negSucc m =>
    simp only [Int.repr, scan_numeral_neg_repr]
    simp only [if_true]
    have e : -((Nat.succ m : Nat) : Int) = Int.negSucc m := rfl
    rw [e, if_pos ⟨hlo, hhi⟩]

theorem sto_unsigned_repr (what : String) (w : Nat) (n : Nat) (h : n < 2 ^ w) :
    sto_unsigned what w (Nat.repr n) = .ok n := by
  unfold sto_unsigned
  simp [scan_numeral_repr, h]

theorem set_value_converter (fp : FloatParsers) (a : Argument) (c : Converter) (s : String)
    (v : ArgTypes) (hc : a.converter = some c) (hr : c.run fp s = .ok v) :
    a.set_value fp s = .ok (none, { a with m_value := some v }) := by
  unfold Argument.set_value
  rw [hc]
  simp only [hr]

/-! ## Conversion of the canonical literals -/

/-- Claim C6, the conversion half, which is all of the round trip that the
code has: on an argument that `validation` accepted, for each of the seven
supported types that are not floating point, `set_value` on the canonical
literal of a value of the type succeeds and stores that value, tagged with the
declared type, in `m_value`. The canonical literal is the decimal rendering for
the integer types, the string itself, and true or false for bool. The
retrieval half has no counterpart: `value<T>` cannot be instantiated. -/
theorem conversion_of_canonical_literal (fp : FloatParsers) (a0 a : Argument)
    (hv : Argument.validation a0 = (none, a)) :
    (a.type = "string" → ∀ s : String,
        a.set_value fp s = .ok (none, { a with m_value := some (.string s) }))
    ∧ (a.type = "int" → ∀ v : Int, -(2 : Int) ^ 31 ≤ v → v < (2 : Int) ^ 31 →
        a.set_value fp (Int.repr v) = .ok (none, { a with m_value := some (.int v) }))
    ∧ (a.type = "long" → ∀ v : Int, -(2 : Int) ^ 63 ≤ v → v < (2 : Int) ^ 63 →
        a.set_value fp (Int.repr v) = .ok (none, { a with m_value := some (.long v) }))
    ∧ (a.type = "unsigned long" → ∀ v : Nat, v < 2 ^ 64 →
        a.set_value fp (Nat.repr v)
          = .ok (none, { a with m_value := some (.unsigned_long v) }))
    ∧ (a.type = "long long" → ∀ v : Int, -(2 : Int) ^ 63 ≤ v → v < (2 : Int) ^ 63 →
        a.set_value fp (Int.repr v)
          = .ok (none, { a with m_value := some (.long_long v) }))
    ∧ (a.type = "unsigned long long" → ∀ v : Nat, v < 2 ^ 64 →
        a.set_value fp (Nat.repr v)
          = .ok (none, { a with m_value := some (.unsigned_long_long v) }))
    ∧ (a.type = "bool" → ∀ v : Bool,
        a.set_value fp (if v then "true" else "false")
          = .ok (none, { a with m_value := some (.bool v) })) := by
  obtain ⟨-, hc, -, -, -⟩ := validation_converter a0 a hv
  refine ⟨?_, ?_, ?_, ?_, ?_, ?_, ?_⟩
  · intro ht s
    have ht1 : a.m_type = "string" := ht
    rw [ht1] at hc
    exact set_value_converter fp a .string s (.string s) hc rfl
  · intro ht v hlo hhi
    have ht1 : a.m_type = "int" := ht
    rw [ht1] at hc
    refine set_value_converter fp a .int _ (.int v) hc ?_
    simp only [Converter.run]
    rw [sto_signed_repr "stoi" 32 v hlo hhi]; rfl
  · intro ht v hlo hhi
    have ht1 : a.m_type = "long" := ht
    rw [ht1] at hc
    refine set_value_converter fp a .long _ (.long v) hc ?_
    simp only [Converter.run]
    rw [sto_signed_repr "stol" 64 v hlo hhi]; rfl
  · intro ht v hhi
    have ht1 : a.m_type = "unsigned long" := ht
    rw [ht1] at hc
    refine set_value_converter fp a .unsigned_long _ (.unsigned_long v) hc ?_
    simp only [Converter.run]
    rw [sto_unsigned_repr "stoul" 64 v hhi]; rfl
  · intro ht v hlo hhi
    have ht1 : a.m_type = "long long" := ht
    rw [ht1] at hc
    refine set_value_converter fp a .long_long _ (.long_long v) hc ?_
    simp only [Converter.run]
    rw [sto_signed_repr "stoll" 64 v hlo hhi]; rfl
  · intro ht v hhi
    have ht1 : a.m_type = "unsigned long long" := ht
    rw [ht1] at hc
    refine set_value_converter fp a .unsigned_long_long _ (.unsigned_long_long v) hc ?_
    simp only [Converter.run]
    rw [sto_unsigned_repr "stoull" 64 v hhi]; rfl
  · intro ht v
    have ht1 : a.m_type = "bool" := ht
    rw [ht1] at hc
    refine set_value_converter fp a .bool _ (.bool v) hc ?_
    cases v <;> rfl

theorem conversion_of_canonical_literal_witness :
    Argument.validation (Argument.new "int" "--count" "" "---" none)
        = (none, validated "int" "--count")
      ∧ Int.repr 42 = "42"
      ∧ (validated "int" "--count").set_value no_floats (Int.repr 42)
          = .ok (none, { validated "int" "--count" with m_value := some (.int 42) }) :=
  ⟨rfl, by decide,
    (conversion_of_canonical_literal no_floats (Argument.new "int" "--count" "" "---" none)
      (validated "int" "--count") rfl).2.1 rfl 42 (by decide) (by decide)⟩

/-! ## Optional arguments -/

/-- The scan passes over the entries whose alias sets do not contain the token. -/
theorem set_optional_scan_skip (fp : FloatParsers) (tok : String) (queue : List String)
    (pre rest : Map Argument)
    (hpre : ∀ e ∈ pre, is_in_vector e.2.options tok = false) :
    Command.set_optional_scan fp tok queue (pre ++ rest)
      = match Command.set_optional_scan fp tok queue rest with
        | .error e => .error e
        | .ok (error, rest1, queue1) => .ok (error, pre ++ rest1, queue1) := by
  induction pre with
  | nil =>
    simp only [List.nil_append]
    cases Command.set_optional_scan fp tok queue rest with
    | error e => rfl
    | ok r => rfl
  | cons e pre ih =>
    obtain ⟨k, a⟩ := e
    have h1 : is_in_vector a.options tok = false := hpre (k, a) (List.mem_cons_self _ _)
    have h2 := ih (fun e he => hpre e (List.mem_cons_of_mem _ he))
    simp only [List.cons_append, Command.set_optional_scan, h1, Bool.false_eq_true, if_false]
    have h3 : Command.set_optional_scan fp tok queue (pre.append rest) = _ := h2
    rw [h3]
    cases Command.set_optional_scan fp tok queue rest with
    | error e => rfl
    | ok r => rfl

/-- What `set_optional_argument_value` does once the scan has selected `arg`. -/
theorem set_optional_selected (fp : FloatParsers) (c : Command) (tok : String)
    (queue : List String) (pre post : Map Argument) (k : String) (arg : Argument)
    (hm : c.m_optional_arguments = pre ++ (k, arg) :: post)
    (hpre : ∀ e ∈ pre, is_in_vector e.2.options tok = false) :
    c.set_optional_argument_value fp tok queue
      = match Command.set_optional_scan fp tok queue ((k, arg) :: post) with
        | .error e => .error e
        | .ok (error, rest1, queue1) =>
          .ok (error, { c with m_optional_arguments := pre ++ rest1 }, queue1) := by
  unfold Command.set_optional_argument_value
  rw [hm, set_optional_scan_skip fp tok queue pre _ hpre]
  cases Command.set_optional_scan fp tok queue ((k, arg) :: post) with
  | error e => rfl
  | ok r => rfl

/-- An error message of `set_value` starts with the words converter error. -/
theorem set_value_error_shape (fp : FloatParsers) (a a1 : Argument) (s e : String)
    (h : a.set_value fp s = .ok (some e, a1)) :
    ∃ w, e = "converter error: " ++ w ∧ a1 = a := by
  unfold Argument.set_value at h
  cases hc : a.converter with
  | none => rw [hc] at h; simp at h
  | some c =>
    rw [hc] at h
    simp only at h
    cases hr : c.run fp s with
    | ok v => rw [hr] at h; simp at h
    | error x =>
      rw [hr] at h
      cases x with
      | invalid_argument w => simp at h; exact ⟨w, h.1.symm, h.2.symm⟩
      | out_of_range w => simp at h; exact ⟨w, h.1.symm, h.2.symm⟩
      | bad_function_call => simp at h

theorem expected_argument_ne (tok w : String) :
    tok ++ ": " ++ ("converter error: " ++ w) ≠ tok ++ ": expected argument" := by
  intro h
  have h1 := congrArg String.data h
  simp only [String.data_append, List.append_assoc] at h1
  have h2 := List.append_cancel_left h1
  simp at h2


/-- Claim C4, amended: when the first optional argument in key order whose alias
set contains the token is not of type bool, `set_optional_argument_value`
returns the error `token: expected argument` exactly when the queue is empty or
its front token starts with a dash, and then the command and the queue are
unchanged. -/
theorem expected_argument_iff (fp : FloatParsers) (c : Command) (tok : String)
    (queue : List String) (pre post : Map Argument) (k : String) (arg : Argument)
    (hm : c.m_optional_arguments = pre ++ (k, arg) :: post)
    (hpre : ∀ e ∈ pre, is_in_vector e.2.options tok = false)
    (hin : is_in_vector arg.options tok = true)
    (hbool : arg.type ≠ "bool") :
    ((∃ c1 queue1, c.set_optional_argument_value fp tok queue
          = .ok (some (tok ++ ": expected argument"), c1, queue1))
      ↔ (queue = [] ∨ ∃ front popped, queue = front :: popped ∧ starts_with front "-" = true))
    ∧ ((queue = [] ∨ ∃ front popped, queue = front :: popped ∧ starts_with front "-" = true) →
        c.set_optional_argument_value fp tok queue
          = .ok (some (tok ++ ": expected argument"), c, queue)) := by
  have hsel := set_optional_selected fp c tok queue pre post k arg hm hpre
  have hc : ({ c with m_optional_arguments := pre ++ (k, arg) :: post } : Command) = c := by
    rw [← hm]
  have hyes : (queue = [] ∨ ∃ front popped, queue = front :: popped
        ∧ starts_with front "-" = true) →
      c.set_optional_argument_value fp tok queue
        = .ok (some (tok ++ ": expected argument"), c, queue) := by
    intro hq
    rw [hsel]
    rcases hq with hq | ⟨front, popped, hq, hd⟩
    · subst hq
      simp only [Command.set_optional_scan, hin, if_true, hbool, if_false]
      rw [hc]
    · subst hq
      simp only [Command.set_optional_scan, hin, if_true, hbool, if_false, hd]
      rw [hc]
  refine ⟨⟨?_, fun hq => ⟨c, queue, hyes hq⟩⟩, hyes⟩
  rintro ⟨c1, queue1, hr⟩
  cases queue with
  | nil => exact Or.inl rfl
  | cons front popped =>
    right
    refine ⟨front, popped, rfl, ?_⟩
    by_contra hd
    have hd1 : starts_with front "-" = false := by simpa using hd
    rw [hsel] at hr
    simp only [Command.set_optional_scan, hin, if_true, hbool, if_false, hd1,
      Bool.false_eq_true] at hr
    cases hs : arg.set_value fp front with
    | error e => rw [hs] at hr; simp at hr
    | ok r =>
      obtain ⟨e, a1⟩ := r
      rw [hs] at hr
      cases e with
      | none => simp at hr
      | some e =>
        obtain ⟨w, hw, -⟩ := set_value_error_shape fp arg a1 front e hs
        simp only [Except.ok.injEq, Prod.mk.injEq, Option.some.injEq] at hr
        rw [hw] at hr
        exact expected_argument_ne tok w hr.1


theorem expected_argument_iff_witness :
    command_count.m_optional_arguments = [] ++ ("-count", validated "int" "--count") :: []
      ∧ is_in_vector (validated "int" "--count").options "--count" = true
      ∧ (validated "int" "--count").type ≠ "bool"
      ∧ command_count.set_optional_argument_value no_floats "--count" []
          = .ok (some ("--count" ++ ": expected argument"), command_count, []) :=
  ⟨by decide, by decide, by decide,
    (expected_argument_iff no_floats command_count "--count" [] [] [] "-count"
      (validated "int" "--count") (by decide) (by simp) (by decide) (by decide)).2
      (Or.inl rfl)⟩

/-- Claim C4 as stated fails: `--beta` is a non-boolean option with `-v` in its
alias set and the queue is empty, yet the call with `-v` returns no error,
because the scan selects `--alpha`, which comes first in key order. -/
theorem expected_argument_shared_alias :
    (∃ beta, Map.find command_alpha_beta.m_optional_arguments "-beta" = some beta
        ∧ beta.type = "int" ∧ is_in_vector beta.options "-v" = true)
      ∧ ∃ c1, command_alpha_beta.set_optional_argument_value no_floats "-v" []
          = .ok (none, c1, []) :=
  ⟨⟨_, rfl, by decide, by decide⟩, ⟨_, rfl⟩⟩

/-- Claim C10, amended: when the first optional argument in key order whose
alias set contains the token is of type bool, with the converter of its type
bound by `validation`, `set_optional_argument_value` succeeds, sets the value
of that argument to true and leaves the queue as it is, whatever the queue
holds. -/
theorem bool_option_is_flag (fp : FloatParsers) (c : Command) (tok : String)
    (queue : List String) (pre post : Map Argument) (k : String) (arg : Argument)
    (hm : c.m_optional_arguments = pre ++ (k, arg) :: post)
    (hpre : ∀ e ∈ pre, is_in_vector e.2.options tok = false)
    (hin : is_in_vector arg.options tok = true)
    (hbool : arg.type = "bool")
    (hbound : arg.converter = converter_for arg.m_type) :
    c.set_optional_argument_value fp tok queue
      = .ok (none,
          { c with m_optional_arguments :=
              pre ++ (k, { arg with m_value := some (.bool true) }) :: post },
          queue) := by
  have ht : arg.m_type = "bool" := hbool
  have hc : arg.converter = some .bool := by rw [hbound, ht]; decide
  have hs : arg.set_value fp "true"
      = .ok (none, { arg with m_value := some (.bool true) }) :=
    set_value_converter fp arg .bool "true" (.bool true) hc rfl
  rw [set_optional_selected fp c tok queue pre post k arg hm hpre]
  simp only [Command.set_optional_scan, hin, if_true, hbool, hs]

theorem bool_option_is_flag_witness :
    command_flag.m_optional_arguments = [] ++ ("-flag", validated "bool" "--flag") :: []
      ∧ is_in_vector (validated "bool" "--flag").options "--flag" = true
      ∧ (validated "bool" "--flag").type = "bool"
      ∧ command_flag.set_optional_argument_value no_floats "--flag" ["false"]
          = .ok (none,
              { command_flag with m_optional_arguments :=
                  [] ++ ("-flag", { validated "bool" "--flag" with
                                      m_value := some (.bool true) }) :: [] },
              ["false"]) :=
  ⟨by decide, by decide, by decide,
    bool_option_is_flag no_floats command_flag "--flag" ["false"] [] [] "-flag"
      (validated "bool" "--flag") (by decide) (by simp) (by decide) (by decide) (by decide)⟩

/-- Claim C10 as stated fails. The option `--verbose` is of type bool with `-v` in
its alias set, yet the call with `-v` leaves it without a value, because the
scan selects `--quiet`, which comes first in key order. And an option of type
bool whose `validation` failed has no converter bound: the call for it ends in
an uncaught `std::bad_function_call`. -/
theorem bool_option_shared_alias :
    ((∃ verbose, Map.find command_quiet_verbose.m_optional_arguments "-verbose" = some verbose
        ∧ verbose.type = "bool" ∧ is_in_vector verbose.options "-v" = true)
      ∧ ∃ c1, command_quiet_verbose.set_optional_argument_value no_floats "-v" []
          = .ok (none, c1, [])
        ∧ (∃ verbose1, Map.find c1.m_optional_arguments "-verbose" = some verbose1
            ∧ verbose1.m_value = none)
        ∧ (∃ quiet1, Map.find c1.m_optional_arguments "-quiet" = some quiet1
            ∧ quiet1.m_value = some (.bool true)))
    ∧ ((Argument.validation (Argument.new "bool" "--flag" "f" "---" none)).1
          = some Argument.short_argument_error
      ∧ (∃ flag, Map.find command_unbound_flag.m_optional_arguments "-flag" = some flag
          ∧ flag.type = "bool" ∧ is_in_vector flag.options "--flag" = true)
      ∧ command_unbound_flag.set_optional_argument_value no_floats "--flag" []
          = .error .bad_function_call) :=
  ⟨⟨⟨_, rfl, by decide, by decide⟩, ⟨_, rfl, ⟨_, rfl, by decide⟩, ⟨_, rfl, by decide⟩⟩⟩,
    ⟨by decide, ⟨_, rfl, by decide, by decide⟩, rfl⟩⟩

/-! ## The positional cursor -/

/-- A cursor at `end()` makes `set_positional_argument_value` fail and change nothing. -/
theorem set_positional_at_end (fp : FloatParsers) (c : Command) (t : String)
    (h : c.m_positional_iterator = Map.end_) :
    c.set_positional_argument_value fp t = .ok (some (t ++ ": unknown argument"), c) := by
  unfold Command.set_positional_argument_value
  rw [h]; rfl

/-! ## The ordered map -/

theorem Map.find_mem_keys {β : Type} (m : Map β) (k : String) (v : β)
    (h : Map.find m k = some v) : k ∈ Map.keys m := by
  induction m with
  | nil => simp [Map.find] at h
  | cons e m ih =>
    obtain ⟨k1, v1⟩ := e
    by_cases hk : k1 = k
    · simp [Map.keys, hk]
    · simp only [Map.find, hk, if_false] at h
      simp only [Map.keys, List.map_cons, List.mem_cons]
      exact Or.inr (ih h)

/-! ## The queue of `set_optional_argument_value` -/

theorem not_empty_name (s : String) : (!s.data.isEmpty) = true ↔ s ≠ "" := by
  rcases s with ⟨l⟩
  cases l with
  | nil => simp
  | cons c l =>
    simp only [List.isEmpty_cons, Bool.not_false, true_iff]
    intro h
    have := congrArg String.data h
    simp at this

/-- What `check_long_argument` returns for each shape of the name. -/
theorem check_long_argument_cases (a : Argument) :
    ((leading_dashes a.m_name = 1 ∨ 3 ≤ leading_dashes a.m_name) →
        Argument.check_long_argument a = (some Argument.long_argument_error, a))
    ∧ (leading_dashes a.m_name = 2 →
        Argument.check_long_argument a
          = (none, { a with m_positional := false
                            m_long_argument := a.m_name
                            m_name := erase_first a.m_name
                            m_options := a.m_options ++ [a.m_name] }))
    ∧ (leading_dashes a.m_name = 0 →
        Argument.check_long_argument a = (none, { a with m_positional := true })) := by
  obtain ⟨d1, d2, d3⟩ := starts_with_dashes a.m_name
  have f1 : ¬ 1 ≤ leading_dashes a.m_name → starts_with a.m_name "-" = false := by
    intro h; rw [Bool.eq_false_iff]; intro h3; exact h (d1.1 h3)
  have f2 : ¬ 2 ≤ leading_dashes a.m_name → starts_with a.m_name "--" = false := by
    intro h; rw [Bool.eq_false_iff]; intro h3; exact h (d2.1 h3)
  have f3 : ¬ 3 ≤ leading_dashes a.m_name → starts_with a.m_name "---" = false := by
    intro h; rw [Bool.eq_false_iff]; intro h3; exact h (d3.1 h3)
  unfold Argument.check_long_argument
  refine ⟨?_, ?_, ?_⟩
  · rintro (h | h)
    · simp [d1.2 (by omega), f2 (by omega)]
    · simp [d2.2 (by omega), d3.2 h]
  · intro h
    simp [d2.2 (by omega), f3 (by omega)]
  · intro h
    simp [f1 (by omega), f2 (by omega)]

/-- What `check_short_argument` returns for each shape of the short alias. -/
theorem check_short_argument_cases (a : Argument) :
    ((a.m_short_argument ≠ "" ∧ leading_dashes a.m_short_argument ≠ 1) →
        Argument.check_short_argument a = (some Argument.short_argument_error, a))
    ∧ ((a.m_short_argument = "" ∨ leading_dashes a.m_short_argument = 1) →
        Argument.check_short_argument a
          = (none, { a with m_options := a.m_options ++ [a.m_short_argument] })) := by
  refine ⟨?_, check_short_argument_ok a⟩
  rintro ⟨h1, h2⟩
  obtain ⟨d1, d2, -⟩ := starts_with_dashes a.m_short_argument
  have hne := (not_empty_name _).2 h1
  unfold Argument.check_short_argument
  by_cases h0 : 1 ≤ leading_dashes a.m_short_argument
  · have : starts_with a.m_short_argument "--" = true := d2.2 (by omega)
    simp [hne, this]
  · have : starts_with a.m_short_argument "-" = false := by
      rw [Bool.eq_false_iff]; intro h3; exact h0 (d1.1 h3)
    simp [hne, this]

/-- Claim C16: `validation` returns the first failing check in the order name,
short alias, type, default. It returns the long-argument error when the name
starts with one dash or with three or more; else the short-argument error when
the short alias is not empty and does not start with exactly one dash; else the
unsupported-type error when the type is not one of the ten supported names;
else the default-type error when a default is supplied whose alternative is
not the declared type; else success. -/
theorem validation_first_failing_check (a : Argument) :
    ((leading_dashes a.m_name = 1 ∨ 3 ≤ leading_dashes a.m_name) →
        (Argument.validation a).1 = some Argument.long_argument_error)
    ∧ (¬ (leading_dashes a.m_name = 1 ∨ 3 ≤ leading_dashes a.m_name) →
        ((a.m_short_argument ≠ "" ∧ leading_dashes a.m_short_argument ≠ 1) →
          (Argument.validation a).1 = some Argument.short_argument_error)
        ∧ (¬ (a.m_short_argument ≠ "" ∧ leading_dashes a.m_short_argument ≠ 1) →
          (a.m_type ∉ ArgTypeIndex →
            (Argument.validation a).1 = some ("unsupported type \x60" ++ a.m_type ++ "\x27"))
          ∧ (a.m_type ∈ ArgTypeIndex →
            (∀ d, a.m_default_value = some d → ArgTypeIndex_at d.index ≠ a.m_type →
              (Argument.validation a).1
                = some ("invalid default value type, must be \x27" ++ a.m_type ++ "\x27"))
            ∧ ((∀ d, a.m_default_value = some d → ArgTypeIndex_at d.index = a.m_type) →
              (Argument.validation a).1 = none)))) := by
  obtain ⟨l1, l2, l3⟩ := check_long_argument_cases a
  refine ⟨fun h => by unfold Argument.validation; rw [l1 h], ?_⟩
  intro hname
  -- the name passes: one of the two accepting branches was taken
  have hlong : ∃ a1, Argument.check_long_argument a = (none, a1) := by
    by_cases h0 : leading_dashes a.m_name = 0
    · exact ⟨_, l3 h0⟩
    · exact ⟨_, l2 (by omega)⟩
  obtain ⟨a1, h1⟩ := hlong
  have k1 := check_long_argument_keeps a
  rw [h1] at k1
  simp only at k1
  obtain ⟨kt, -, -, kd, ks⟩ := k1
  obtain ⟨s1, s2⟩ := check_short_argument_cases a1
  rw [ks] at s1 s2
  refine ⟨fun h => by unfold Argument.validation; rw [h1]; simp only; rw [s1 h], ?_⟩
  intro hshort
  have h2 := s2 (by
    by_cases e : a.m_short_argument = ""
    · exact Or.inl e
    · right; by_contra h; exact hshort ⟨e, h⟩)
  have hval : Argument.validation a
      = match converter_for a.m_type with
        | some c =>
          (match a.m_default_value with
            | some d =>
              if ArgTypeIndex_at d.index = a.m_type then
                (none, ({ a1 with m_options := a1.m_options ++ [a.m_short_argument]
                                  converter := some c } : Argument))
              else (some ("invalid default value type, must be \x27" ++ a.m_type ++ "\x27"),
                ({ a1 with m_options := a1.m_options ++ [a.m_short_argument]
                           converter := some c } : Argument))
            | none => (none, ({ a1 with m_options := a1.m_options ++ [a.m_short_argument]
                                        converter := some c } : Argument)))
        | none => (some ("unsupported type \x60" ++ a.m_type ++ "\x27"),
            ({ a1 with m_options := a1.m_options ++ [a.m_short_argument] } : Argument)) := by
    unfold Argument.validation
    rw [h1]
    simp only
    rw [h2]
    simp only
    rw [set_converter_eq]
    simp only [kt, ks, kd]
    cases converter_for a.m_type with
    | none => rfl
    | some c =>
      simp only
      cases a.m_default_value with
      | none => rfl
      | some d =>
        simp only [Argument.is_valid_type, kt]
        by_cases hd : a.m_type = ArgTypeIndex_at d.index
        · simp [hd]
        · have hd2 : ¬ ArgTypeIndex_at d.index = a.m_type := fun e => hd e.symm
          simp [hd, hd2]
  refine ⟨?_, ?_⟩
  · intro ht
    have : converter_for a.m_type = none := by
      by_contra h
      exact ht ((converter_for_ne_none_iff _).1 h)
    rw [hval, this]
  · intro ht
    obtain ⟨c, hc⟩ := Option.ne_none_iff_exists'.1 ((converter_for_ne_none_iff _).2 ht)
    rw [hval, hc]
    refine ⟨?_, ?_⟩
    · intro d hd hne
      simp [hd, hne]
    · intro hall
      cases hd : a.m_default_value with
      | none => rfl
      | some d => simp [hall d hd]


/-! ## The postcondition of `set_value` and the tag invariant -/

theorem converter_run_index (fp : FloatParsers) (c : Converter) (s : String) (v : ArgTypes)
    (h : c.run fp s = .ok v) : v.index = c.index := by
  cases c <;> simp only [Converter.run] at h
  · simp only [Except.ok.injEq] at h; rw [← h]; rfl
  · cases hr : sto_signed "stoi" 32 s <;> simp [Except.map, hr] at h
    rw [← h]; rfl
  · cases hr : sto_signed "stol" 64 s <;> simp [Except.map, hr] at h
    rw [← h]; rfl
  · cases hr : sto_unsigned "stoul" 64 s <;> simp [Except.map, hr] at h
    rw [← h]; rfl
  · cases hr : sto_signed "stoll" 64 s <;> simp [Except.map, hr] at h
    rw [← h]; rfl
  · cases hr : sto_unsigned "stoull" 64 s <;> simp [Except.map, hr] at h
    rw [← h]; rfl
  · cases hr : fp.stof s <;> simp [Except.map, hr] at h
    rw [← h]; rfl
  · cases hr : fp.stod s <;> simp [Except.map, hr] at h
    rw [← h]; rfl
  · cases hr : fp.stold s <;> simp [Except.map, hr] at h
    rw [← h]; rfl
  · split_ifs at h <;> simp only [Except.ok.injEq] at h
    · rw [← h]; rfl
    · rw [← h]; rfl

theorem converter_for_index (t : String) (c : Converter) (h : converter_for t = some c) :
    ArgTypeIndex_at c.index = t := by
  unfold converter_for at h
  split_ifs at h with h0 h1 h2 h3 h4 h5 h6 h7 h8 h9 <;>
    simp only [Option.some.injEq] at h <;> subst h
  · rw [h0]; rfl
  · rw [h1]; rfl
  · rw [h2]; rfl
  · rw [h3]; rfl
  · rw [h4]; rfl
  · rw [h5]; rfl
  · rw [h6]; rfl
  · rw [h7]; rfl
  · rw [h8]; rfl
  · rw [h9]; rfl

/-- The call `set_value` changes nothing but the current value. -/
theorem set_value_keeps (fp : FloatParsers) (a a1 : Argument) (s : String) (e : Error)
    (h : a.set_value fp s = .ok (e, a1)) :
    a1.m_type = a.m_type ∧ a1.converter = a.converter
      ∧ a1.m_default_value = a.m_default_value ∧ a1.m_name = a.m_name
      ∧ a1.m_options = a.m_options ∧ a1.m_positional = a.m_positional
      ∧ (a1.m_value = a.m_value
          ∨ ∃ c v, a.converter = some c ∧ c.run fp s = .ok v ∧ a1.m_value = some v) := by
  unfold Argument.set_value at h
  cases hc : a.converter with
  | none => rw [hc] at h; simp at h
  | some c =>
    rw [hc] at h
    simp only at h
    cases hr : c.run fp s with
    | ok v =>
      rw [hr] at h
      simp only [Except.ok.injEq, Prod.mk.injEq] at h
      rw [← h.2]
      exact ⟨rfl, hc.symm ▸ rfl, rfl, rfl, rfl, rfl, Or.inr ⟨c, v, rfl, hr, rfl⟩⟩
    | error x =>
      rw [hr] at h
      cases x with
      | invalid_argument w =>
        simp only [Except.ok.injEq, Prod.mk.injEq] at h
        rw [← h.2]; exact ⟨rfl, hc.symm ▸ rfl, rfl, rfl, rfl, rfl, Or.inl rfl⟩
      | out_of_range w =>
        simp only [Except.ok.injEq, Prod.mk.injEq] at h
        rw [← h.2]; exact ⟨rfl, hc.symm ▸ rfl, rfl, rfl, rfl, rfl, Or.inl rfl⟩
      | bad_function_call => simp at h

/-- A sequence of `set_value` calls keeps the type, the converter and the default,
and leaves a current value that is the old one or came out of the converter. -/
theorem set_values_keeps (fp : FloatParsers) (tokens : List String) : ∀ (a : Argument),
    (a.set_values fp tokens).m_type = a.m_type
      ∧ (a.set_values fp tokens).converter = a.converter
      ∧ (a.set_values fp tokens).m_default_value = a.m_default_value
      ∧ ((a.set_values fp tokens).m_value = a.m_value
          ∨ ∃ c s v, a.converter = some c ∧ c.run fp s = .ok v
              ∧ (a.set_values fp tokens).m_value = some v) := by
  induction tokens with
  | nil => intro a; exact ⟨rfl, rfl, rfl, Or.inl rfl⟩
  | cons s rest ih =>
    intro a
    simp only [Argument.set_values]
    cases hs : a.set_value fp s with
    | error e => exact ⟨rfl, rfl, rfl, Or.inl rfl⟩
    | ok r =>
      obtain ⟨e, a1⟩ := r
      simp only
      obtain ⟨k1, k2, k3, -, -, -, k4⟩ := set_value_keeps fp a a1 s e hs
      obtain ⟨i1, i2, i3, i4⟩ := ih a1
      refine ⟨by rw [i1, k1], by rw [i2, k2], by rw [i3, k3], ?_⟩
      rcases i4 with i4 | ⟨c, s2, v, j1, j2, j3⟩
      · rcases k4 with k4 | ⟨c, v, j1, j2, j3⟩
        · left; rw [i4, k4]
        · right; exact ⟨c, s, v, j1, j2, by rw [i4, j3]⟩
      · right; exact ⟨c, s2, v, by rw [← k2]; exact j1, j2, j3⟩


/-- Claim C18: for an argument made by the constructor and accepted by
`validation`, after any sequence of `set_value` calls the current value and the
default value, when present, hold the alternative named by the declared type,
which is still the type given to the constructor. And whenever a default is
supplied whose alternative is not the declared type, `validation` returns an
error and leaves the default as it was. -/
theorem tag_invariant (fp : FloatParsers) (type name short_argument description : String)
    (default_value : Option ArgTypes) (a : Argument)
    (hv : Argument.validation (Argument.new type name short_argument description default_value)
        = (none, a))
    (tokens : List String) :
    ((a.set_values fp tokens).type = type
      ∧ (∀ v, (a.set_values fp tokens).m_value = some v → ArgTypeIndex_at v.index = type)
      ∧ (∀ d, (a.set_values fp tokens).m_default_value = some d →
          ArgTypeIndex_at d.index = type))
    ∧ (∀ (b : Argument) (d : ArgTypes), b.m_default_value = some d →
        ArgTypeIndex_at d.index ≠ b.m_type →
        (Argument.validation b).1 ≠ none
          ∧ (Argument.validation b).2.m_default_value = some d) := by
  refine ⟨?_, ?_⟩
  · obtain ⟨a1, a2, c, h1, h2, h3, h4, h5⟩ := validation_ok_steps _ a hv
    obtain ⟨ht, hc, -, hval, hdef⟩ := validation_converter _ a hv
    have ht1 : a.m_type = type := ht
    have hval1 : a.m_value = none := hval
    have hdef1 : a.m_default_value = default_value := hdef
    obtain ⟨k1, k2, k3, k4⟩ := set_values_keeps fp tokens a
    have hcc : a.converter = some c := by rw [h4]
    have hcf : converter_for type = some c := by rw [← ht1, ← hc, hcc]
    refine ⟨by show (a.set_values fp tokens).m_type = type; rw [k1, ht1], ?_, ?_⟩
    · intro v hv1
      rcases k4 with k4 | ⟨c2, s, v2, j1, j2, j3⟩
      · rw [k4, hval1] at hv1; simp at hv1
      · rw [j3] at hv1
        simp only [Option.some.injEq] at hv1
        subst hv1
        rw [hcc] at j1
        simp only [Option.some.injEq] at j1
        subst j1
        rw [converter_run_index fp _ s _ j2]
        exact converter_for_index type _ hcf
    · intro d hd
      rw [k3] at hd
      have hd2 : a2.m_default_value = some d := by
        rw [h4] at hd; exact hd
      have := h5 d hd2
      simp only [Argument.is_valid_type, decide_eq_true_eq] at this
      rw [← this, ht1]
  · intro b d hd hne
    have keep : (Argument.validation b).2.m_default_value = b.m_default_value := by
      unfold Argument.validation
      have k1 := check_long_argument_keeps b
      generalize Argument.check_long_argument b = r1 at k1
      obtain ⟨e1, b1⟩ := r1
      cases e1 with
      | some e => exact k1.2.2.2.1
      | none =>
        simp only at k1 ⊢
        have k2 := check_short_argument_keeps b1
        generalize Argument.check_short_argument b1 = r2 at k2
        obtain ⟨e2, b2⟩ := r2
        cases e2 with
        | some e => simp only at k2 ⊢; rw [k2.2.2.2.1, k1.2.2.2.1]
        | none =>
          simp only at k2 ⊢
          rw [set_converter_eq]
          cases converter_for b2.m_type with
          | none => simp only; rw [k2.2.2.2.1, k1.2.2.2.1]
          | some c =>
            simp only
            have hb2 : b2.m_default_value = b.m_default_value := by
              rw [k2.2.2.2.1, k1.2.2.2.1]
            cases hd2 : b2.m_default_value with
            | none => simp only; rw [← hb2, hd2]
            | some d2 =>
              simp only
              split_ifs <;> simp only <;> rw [← hb2, hd2]
    refine ⟨?_, by rw [keep, hd]⟩
    intro hnone
    have hv2 : Argument.validation b = (none, (Argument.validation b).2) := by
      rw [← hnone]
    obtain ⟨a1, a2, c, h1, h2, h3, h4, h5⟩ := validation_ok_steps _ _ hv2
    obtain ⟨ht, -, -, -, hdef⟩ := validation_converter _ _ hv2
    have hd2 : a2.m_default_value = some d := by
      have : (Argument.validation b).2.m_default_value = a2.m_default_value := by rw [h4]
      rw [← this, hdef, hd]
    have := h5 d hd2
    simp only [Argument.is_valid_type, decide_eq_true_eq] at this
    exact hne (by rw [← this, ht])

theorem tag_invariant_witness :
    Argument.validation (Argument.new "int" "--count" "" "---" (some (.int 3)))
        = (none, (Argument.validation (Argument.new "int" "--count" "" "---" (some (.int 3)))).2)
      ∧ ((Argument.validation (Argument.new "int" "--count" "" "---"
            (some (.int 3)))).2.set_values no_floats ["7", "x", "8"]).type = "int"
      ∧ (∀ v, ((Argument.validation (Argument.new "int" "--count" "" "---"
            (some (.int 3)))).2.set_values no_floats ["7", "x", "8"]).m_value = some v →
          ArgTypeIndex_at v.index = "int")
      ∧ (∀ d, ((Argument.validation (Argument.new "int" "--count" "" "---"
            (some (.int 3)))).2.set_values no_floats ["7", "x", "8"]).m_default_value = some d →
          ArgTypeIndex_at d.index = "int") :=
  ⟨rfl, (tag_invariant no_floats "int" "--count" "" "---" (some (.int 3)) _ rfl
    ["7", "x", "8"]).1⟩

/-- Claim C19: on an argument that `validation` accepted, after any earlier
`set_value` calls, a converter is bound and `set_value` does this: when the
converter returns a value, that value becomes the current value whatever was
stored before; when the converter throws, the call returns the text converter
error followed by the message of the exception and the argument, its current
value included, is as before. So the last write wins: the two calls that the
tokens --count, 1, --count, 2 stand for, made on a command in place, leave the
value 2. -/
theorem set_value_postcondition (fp : FloatParsers) (a0 a1 : Argument)
    (hv : Argument.validation a0 = (none, a1)) (earlier : List String) (s : String) :
    (∃ c, (a1.set_values fp earlier).converter = some c
      ∧ (∀ v, c.run fp s = .ok v →
          (a1.set_values fp earlier).set_value fp s
            = .ok (none, { a1.set_values fp earlier with m_value := some v }))
      ∧ (∀ w, (c.run fp s = .error (.invalid_argument w)
                ∨ c.run fp s = .error (.out_of_range w)) →
          (a1.set_values fp earlier).set_value fp s
            = .ok (some ("converter error: " ++ w), a1.set_values fp earlier)))
    ∧ (∃ c1 c2, command_count.set_optional_argument_value fp "--count" ["1", "--count", "2"]
          = .ok (none, c1, ["--count", "2"])
        ∧ (c1.m_optional_arguments.map fun e => (e.1, e.2.m_value))
            = [("-count", some (.int 1))]
        ∧ c1.set_optional_argument_value fp "--count" ["2"] = .ok (none, c2, [])
        ∧ (c2.m_optional_arguments.map fun e => (e.1, e.2.m_value))
            = [("-count", some (.int 2))]) := by
  refine ⟨?_, ⟨_, _, rfl, by decide, rfl, by decide⟩⟩
  obtain ⟨-, hc, hne, -, -⟩ := validation_converter a0 a1 hv
  obtain ⟨c, hc1⟩ := Option.ne_none_iff_exists'.1 hne
  obtain ⟨-, k2, -, -⟩ := set_values_keeps fp earlier a1
  have hb : (a1.set_values fp earlier).converter = some c := by rw [k2, hc, hc1]
  refine ⟨c, hb, ?_, ?_⟩
  · intro v hr
    exact set_value_converter fp _ c s v hb hr
  · intro w hr
    unfold Argument.set_value
    rw [hb]
    rcases hr with hr | hr <;> simp only [hr]

theorem set_value_postcondition_witness :
    Argument.validation (Argument.new "int" "--count" "" "---" none)
        = (none, validated "int" "--count")
      ∧ ∃ c, ((validated "int" "--count").set_values no_floats ["7"]).converter = some c
        ∧ (∀ v, c.run no_floats "x" = .ok v →
            ((validated "int" "--count").set_values no_floats ["7"]).set_value no_floats "x"
              = .ok (none, { (validated "int" "--count").set_values no_floats ["7"] with
                              m_value := some v }))
        ∧ (∀ w, (c.run no_floats "x" = .error (.invalid_argument w)
                  ∨ c.run no_floats "x" = .error (.out_of_range w)) →
            ((validated "int" "--count").set_values no_floats ["7"]).set_value no_floats "x"
              = .ok (some ("converter error: " ++ w),
                  (validated "int" "--count").set_values no_floats ["7"])) :=
  ⟨rfl, (set_value_postcondition no_floats (Argument.new "int" "--count" "" "---" none)
    (validated "int" "--count") rfl ["7"] "x").1⟩

/-! ## The positional cursor after the declarations -/

theorem add_argument_cursor (c : Command) (a : Argument) (replace : Bool) :
    (c.add_argument a replace).2.m_positional_iterator = c.m_positional_iterator := by
  unfold Command.add_argument
  simp only
  split_ifs <;> rfl

theorem declare_cursor (arguments : List (Argument × Bool)) : ∀ c : Command,
    (Command.declare c arguments).m_positional_iterator = c.m_positional_iterator := by
  induction arguments with
  | nil => intro c; rfl
  | cons a rest ih =>
    intro c
    simp only [Command.declare, List.foldl_cons]
    have := ih (c.add_argument a.1 a.2).2
    simp only [Command.declare] at this
    rw [this, add_argument_cursor]

/-- Claim C15, evaluated on the code: whatever arguments are declared on a new
command, the cursor is at `end()`, where the constructor put it, and every call
of `set_positional_argument_value` fails with the unknown-argument error and
changes nothing. With the string positionals a and b declared, the first call
already fails. -/
theorem positional_cursor_stays_at_end (fp : FloatParsers) (name description : String)
    (arguments : List (Argument × Bool)) (tok : String) :
    (Command.declare (Command.new name description) arguments).m_positional_iterator
        = Map.end_
      ∧ (Command.declare (Command.new name description) arguments).set_positional_argument_value
          fp tok
        = .ok (some (tok ++ ": unknown argument"),
            Command.declare (Command.new name description) arguments)
      ∧ Map.keys command_a_b.m_positional_arguments = ["a", "b"]
      ∧ command_a_b.set_positional_argument_value fp "first"
          = .ok (some "first: unknown argument", command_a_b) := by
  have h : (Command.declare (Command.new name description) arguments).m_positional_iterator
      = Map.end_ := by
    rw [declare_cursor]; rfl
  exact ⟨h, set_positional_at_end fp _ tok h, by decide, rfl⟩

/-! ## Integer conversion -/

theorem dropWhile_initial (p : Char → Bool) (ws rest : List Char)
    (h1 : ∀ c ∈ ws, p c = true) (h2 : ∀ c ∈ rest.head?, p c = false) :
    (ws ++ rest).dropWhile p = rest := by
  induction ws with
  | nil =>
    cases rest with
    | nil => rfl
    | cons c r => simp [List.dropWhile, h2 c (by simp)]
  | cons c ws ih =>
    simp only [List.cons_append, List.dropWhile, h1 c (List.mem_cons_self _ _)]
    exact ih (fun c hc => h1 c (List.mem_cons_of_mem _ hc))

theorem takeWhile_initial (p : Char → Bool) (ds tail : List Char)
    (h1 : ∀ c ∈ ds, p c = true) (h2 : ∀ c ∈ tail.head?, p c = false) :
    (ds ++ tail).takeWhile p = ds := by
  induction ds with
  | nil =>
    cases tail with
    | nil => rfl
    | cons c r => simp [List.takeWhile, h2 c (by simp)]
  | cons c ds ih =>
    simp only [List.cons_append, List.takeWhile, h1 c (List.mem_cons_self _ _)]
    have h3 : List.takeWhile p (ds.append tail) = ds :=
      ih (fun c hc => h1 c (List.mem_cons_of_mem _ hc))
    rw [h3]

theorem takeWhile_dropWhile_facts (p : Char → Bool) (l : List Char) :
    l = l.takeWhile p ++ l.dropWhile p ∧ (∀ c ∈ l.takeWhile p, p c = true)
      ∧ (∀ c ∈ (l.dropWhile p).head?, p c = false) := by
  refine ⟨(List.takeWhile_append_dropWhile p l).symm, ?_, ?_⟩
  · intro c hc
    exact List.mem_takeWhile_imp hc
  · induction l with
    | nil => simp
    | cons a l ih =>
      by_cases ha : p a = true
      · simpa [List.dropWhile, ha] using ih
      · have ha2 : p a = false := by simpa using ha
        simp [List.dropWhile, ha2]

/-- The scan of `strtol` finds exactly the numeral prefix of the token. -/
theorem scan_numeral_iff (s : String) (neg : Bool) (m : Nat) :
    scan_numeral s = some (neg, m) ↔ leading_numeral s neg m := by
  constructor
  · intro h
    unfold scan_numeral at h
    obtain ⟨e1, e2, e3⟩ := takeWhile_dropWhile_facts isspace s.data
    generalize List.dropWhile isspace s.data = rest at h e1 e3
    generalize List.takeWhile isspace s.data = ws at e1 e2
    cases rest with
    | nil => simp at h
    | cons c r =>
      simp only at h
      by_cases hm : c = '-'
      · subst hm
        simp only [if_true] at h
        obtain ⟨f1, f2, f3⟩ := takeWhile_dropWhile_facts isdigit r
        split_ifs at h with hne
        simp only [Option.some.injEq, Prod.mk.injEq] at h
        refine ⟨ws, ['-'], r.takeWhile isdigit, r.dropWhile isdigit, ?_, e2,
          Or.inr (Or.inl ⟨rfl, h.1.symm⟩), ?_, f2, f3, h.2.symm⟩
        · rw [e1]; simp only [List.append_assoc, List.singleton_append, List.cons_append]
          rw [← f1]; rfl
        · intro hnil; rw [hnil] at hne; simp at hne
      · by_cases hp : c = '+'
        · subst hp
          simp only [if_true, hm, if_false] at h
          obtain ⟨f1, f2, f3⟩ := takeWhile_dropWhile_facts isdigit r
          split_ifs at h with hne
          simp only [Option.some.injEq, Prod.mk.injEq] at h
          refine ⟨ws, ['+'], r.takeWhile isdigit, r.dropWhile isdigit, ?_, e2,
            Or.inr (Or.inr ⟨rfl, h.1.symm⟩), ?_, f2, f3, h.2.symm⟩
          · rw [e1]; simp only [List.append_assoc, List.singleton_append, List.cons_append]
            rw [← f1]; rfl
          · intro hnil; rw [hnil] at hne; simp at hne
        · simp only [hm, hp, if_false] at h
          obtain ⟨f1, f2, f3⟩ := takeWhile_dropWhile_facts isdigit (c :: r)
          split_ifs at h with hne
          simp only [Option.some.injEq, Prod.mk.injEq] at h
          refine ⟨ws, [], (c :: r).takeWhile isdigit, (c :: r).dropWhile isdigit, ?_, e2,
            Or.inl ⟨rfl, h.1.symm⟩, ?_, f2, f3, h.2.symm⟩
          · rw [e1]; simp only [List.append_nil, List.append_assoc]
            rw [← f1]
          · intro hnil; rw [hnil] at hne; simp at hne
  · rintro ⟨ws, sign, ds, tail, hs, hws, hsign, hne, hds, htail, hm⟩
    unfold scan_numeral
    cases ds with
    | nil => exact absurd rfl hne
    | cons d ds =>
      obtain ⟨g1, g2, g3⟩ := isdigit_facts d (hds d (List.mem_cons_self _ _))
      rcases hsign with ⟨h1, h2⟩ | ⟨h1, h2⟩ | ⟨h1, h2⟩
      · subst h1 h2
        have hd : List.dropWhile isspace s.data = (d :: ds) ++ tail := by
          rw [hs]
          simp only [List.append_nil, List.append_assoc]
          exact dropWhile_initial isspace ws _ hws (by simp [g1])
        rw [hd]
        simp only [List.cons_append, g2, g3, if_false]
        have := takeWhile_initial isdigit (d :: ds) tail hds htail
        simp only [List.cons_append] at this
        rw [this, hm]
        simp
      · subst h1 h2
        have hd : List.dropWhile isspace s.data = '-' :: ((d :: ds) ++ tail) := by
          rw [hs]
          simp only [List.append_assoc, List.singleton_append]
          exact dropWhile_initial isspace ws _ hws (by simp; decide)
        rw [hd]
        simp only [if_true]
        rw [takeWhile_initial isdigit (d :: ds) tail hds htail, hm]
        simp
      · subst h1 h2
        have hd : List.dropWhile isspace s.data = '+' :: ((d :: ds) ++ tail) := by
          rw [hs]
          simp only [List.append_assoc, List.singleton_append]
          exact dropWhile_initial isspace ws _ hws (by simp; decide)
        rw [hd]
        have hpm : ¬ ('+' = '-') := by decide
        simp only [hpm, if_false, if_true]
        rw [takeWhile_initial isdigit (d :: ds) tail hds htail, hm]
        simp


/-- Claim C11, amended: for an argument of type int that `validation` accepted,
`set_value` succeeds exactly when the token has a numeral prefix (white space,
an optional sign, at least one decimal digit) whose signed value lies between
-2^31 and 2^31-1, and it then stores that value; whatever follows the digits
is ignored. A token without a digit in that place and a numeral out of range
are rejected with the conversion error and the argument is unchanged. -/
theorem int_conversion_accepts_leading_numeral (fp : FloatParsers) (a0 a : Argument)
    (hv : Argument.validation a0 = (none, a)) (ht : a.type = "int") (s : String) :
    (∀ neg m, leading_numeral s neg m →
        (-(2 : Int) ^ 31 ≤ (if neg then -(m : Int) else (m : Int))
          ∧ (if neg then -(m : Int) else (m : Int)) < (2 : Int) ^ 31) →
        a.set_value fp s
          = .ok (none, { a with m_value :=
                            some (.int (if neg then -(m : Int) else (m : Int))) }))
    ∧ (∀ neg m, leading_numeral s neg m →
        ¬ (-(2 : Int) ^ 31 ≤ (if neg then -(m : Int) else (m : Int))
          ∧ (if neg then -(m : Int) else (m : Int)) < (2 : Int) ^ 31) →
        a.set_value fp s = .ok (some ("converter error: " ++ "stoi"), a))
    ∧ ((¬ ∃ neg m, leading_numeral s neg m) →
        a.set_value fp s = .ok (some ("converter error: " ++ "stoi"), a))
    ∧ ((∃ a1, a.set_value fp s = .ok (none, a1))
        ↔ ∃ neg m, leading_numeral s neg m
            ∧ -(2 : Int) ^ 31 ≤ (if neg then -(m : Int) else (m : Int))
            ∧ (if neg then -(m : Int) else (m : Int)) < (2 : Int) ^ 31) := by
  obtain ⟨-, hc, -, -, -⟩ := validation_converter a0 a hv
  have ht1 : a.m_type = "int" := ht
  rw [ht1] at hc
  have hc1 : a.converter = some .int := by rw [hc]; decide
  have hyes : ∀ neg m, leading_numeral s neg m →
      (-(2 : Int) ^ 31 ≤ (if neg then -(m : Int) else (m : Int))
        ∧ (if neg then -(m : Int) else (m : Int)) < (2 : Int) ^ 31) →
      a.set_value fp s
        = .ok (none, { a with m_value :=
                          some (.int (if neg then -(m : Int) else (m : Int))) }) := by
    intro neg m hp hr
    have hscan := (scan_numeral_iff s neg m).2 hp
    refine set_value_converter fp a .int s _ hc1 ?_
    simp only [Converter.run, sto_signed, hscan]
    rw [if_pos (by simpa using hr)]
    rfl
  have hrange : ∀ neg m, leading_numeral s neg m →
      ¬ (-(2 : Int) ^ 31 ≤ (if neg then -(m : Int) else (m : Int))
        ∧ (if neg then -(m : Int) else (m : Int)) < (2 : Int) ^ 31) →
      a.set_value fp s = .ok (some ("converter error: " ++ "stoi"), a) := by
    intro neg m hp hr
    have hscan := (scan_numeral_iff s neg m).2 hp
    unfold Argument.set_value
    rw [hc1]
    simp only [Converter.run, sto_signed, hscan]
    rw [if_neg (by simpa using hr)]
    rfl
  have hnone : (¬ ∃ neg m, leading_numeral s neg m) →
      a.set_value fp s = .ok (some ("converter error: " ++ "stoi"), a) := by
    intro hno
    have hscan : scan_numeral s = none := by
      cases h : scan_numeral s with
      | none => rfl
      | some r =>
        obtain ⟨neg, m⟩ := r
        exact absurd ⟨neg, m, (scan_numeral_iff s neg m).1 h⟩ hno
    unfold Argument.set_value
    rw [hc1]
    simp only [Converter.run, sto_signed, hscan]
    rfl
  refine ⟨hyes, hrange, hnone, ?_, ?_⟩
  · rintro ⟨a1, h1⟩
    by_contra hcon
    by_cases hex : ∃ neg m, leading_numeral s neg m
    · obtain ⟨neg, m, hp⟩ := hex
      have := hrange neg m hp (fun hr => hcon ⟨neg, m, hp, hr.1, hr.2⟩)
      rw [this] at h1
      simp at h1
    · rw [hnone hex] at h1
      simp at h1
  · rintro ⟨neg, m, hp, h1, h2⟩
    exact ⟨_, hyes neg m hp ⟨h1, h2⟩⟩

theorem int_conversion_accepts_leading_numeral_witness :
    Argument.validation (Argument.new "int" "--count" "" "---" none)
        = (none, validated "int" "--count")
      ∧ (validated "int" "--count").type = "int"
      ∧ (validated "int" "--count").set_value no_floats "2147483648"
          = .ok (some ("converter error: " ++ "stoi"), validated "int" "--count") :=
  ⟨rfl, rfl,
    (int_conversion_accepts_leading_numeral no_floats (Argument.new "int" "--count" "" "---" none)
      (validated "int" "--count") rfl rfl "2147483648").2.1 false 2147483648
      ⟨[], [], "2147483648".data, [], rfl, by simp, Or.inl ⟨rfl, rfl⟩, by decide, by decide,
        by simp, by decide⟩
      (by decide)⟩

/-- Claim C11 as stated fails: the token 42abc, which has characters after the
numeral, is accepted and stores 42. -/
theorem int_conversion_trailing_characters :
    (validated "int" "--count").set_value no_floats "42abc"
        = .ok (none, { validated "int" "--count" with m_value := some (.int 42) })
      ∧ (validated "int" "--count").set_value no_floats "7 up"
        = .ok (none, { validated "int" "--count" with m_value := some (.int 7) }) :=
  ⟨rfl, rfl⟩

/-! ## The key order -/

theorem char_toNat_inj (a b : Char) (h : a.toNat = b.toNat) : a = b := by
  apply Char.ext
  apply UInt32.ext
  exact h

theorem chars_lt_irrefl (l : List Char) : chars_lt l l = false := by
  induction l with
  | nil => rfl
  | cons a l ih => simp [chars_lt, ih]

theorem chars_lt_trichotomy : ∀ (a b : List Char),
    chars_lt a b = false → chars_lt b a = false → a = b := by
  intro a
  induction a with
  | nil =>
    intro b h1 h2
    cases b with
    | nil => rfl
    | cons c b => simp [chars_lt] at h1
  | cons x a ih =>
    intro b h1 h2
    cases b with
    | nil => simp [chars_lt] at h2
    | cons y b =>
      simp only [chars_lt] at h1 h2
      by_cases hxy : x.toNat < y.toNat
      · simp [hxy] at h1
      · by_cases hyx : y.toNat < x.toNat
        · simp [hyx] at h2
        · simp only [hxy, hyx, if_false] at h1 h2
          have : x = y := char_toNat_inj x y (by omega)
          rw [this, ih b h1 h2]

theorem chars_lt_trans : ∀ (a b c : List Char),
    chars_lt a b = true → chars_lt b c = true → chars_lt a c = true := by
  intro a
  induction a with
  | nil =>
    intro b c h1 h2
    cases b with
    | nil => simp [chars_lt] at h1
    | cons y b =>
      cases c with
      | nil => simp [chars_lt] at h2
      | cons z c => rfl
  | cons x a ih =>
    intro b c h1 h2
    cases b with
    | nil => simp [chars_lt] at h1
    | cons y b =>
      cases c with
      | nil => simp [chars_lt] at h2
      | cons z c =>
        simp only [chars_lt] at h1 h2 ⊢
        by_cases hxy : x.toNat < y.toNat
        · by_cases hyz : y.toNat < z.toNat
          · have : x.toNat < z.toNat := by omega
            simp [this]
          · by_cases hzy : z.toNat < y.toNat
            · simp [hyz, hzy] at h2
            · have : x.toNat < z.toNat := by omega
              simp [this]
        · by_cases hyx : y.toNat < x.toNat
          · simp [hxy, hyx] at h1
          · simp only [hxy, hyx, if_false] at h1
            by_cases hyz : y.toNat < z.toNat
            · have : x.toNat < z.toNat := by omega
              simp [this]
            · by_cases hzy : z.toNat < y.toNat
              · simp [hyz, hzy] at h2
              · simp only [hyz, hzy, if_false] at h2
                have e1 : ¬ x.toNat < z.toNat := by omega
                have e2 : ¬ z.toNat < x.toNat := by omega
                simp only [e1, e2, if_false]
                exact ih b c h1 h2

theorem key_lt_irrefl (a : String) : key_lt a a = false := chars_lt_irrefl a.data

theorem key_lt_trichotomy (a b : String) (h1 : key_lt a b = false) (h2 : key_lt b a = false) :
    a = b := String.ext (chars_lt_trichotomy a.data b.data h1 h2)

theorem key_lt_trans (a b c : String) (h1 : key_lt a b = true) (h2 : key_lt b c = true) :
    key_lt a c = true := chars_lt_trans a.data b.data c.data h1 h2

theorem key_lt_ne (a b : String) (h : key_lt a b = true) : a ≠ b := by
  intro e; subst e; rw [key_lt_irrefl] at h; exact absurd h (by decide)


theorem Map.sorted_cons {β : Type} (e : String × β) (m : Map β) :
    Map.sorted (e :: m) ↔ (∀ f ∈ m, key_lt e.1 f.1 = true) ∧ Map.sorted m := by
  unfold Map.sorted
  exact List.pairwise_cons

theorem Map.find_none_of_gt {β : Type} (m : Map β) (k : String)
    (h : ∀ f ∈ m, key_lt k f.1 = true) : Map.find m k = none := by
  induction m with
  | nil => rfl
  | cons e m ih =>
    obtain ⟨k1, v1⟩ := e
    have hne : k1 ≠ k := fun e => key_lt_ne k k1 (h (k1, v1) (List.mem_cons_self _ _)) e.symm
    simp only [Map.find, hne, if_false]
    exact ih (fun f hf => h f (List.mem_cons_of_mem _ hf))

theorem Map.mem_keys_iff {β : Type} (m : Map β) (j : String) :
    j ∈ Map.keys m ↔ ∃ f ∈ m, f.1 = j := by
  simp [Map.keys]

/-- The member `insert` on a sorted map. -/
theorem Map.insert_spec {β : Type} (m : Map β) (k : String) (v : β) (hs : Map.sorted m) :
    (Map.find m k = none →
        (Map.insert m k v).2 = true ∧ Map.find (Map.insert m k v).1 k = some v)
    ∧ (Map.find m k ≠ none → Map.insert m k v = (m, false))
    ∧ Map.sorted (Map.insert m k v).1
    ∧ (∀ j, j ∈ Map.keys (Map.insert m k v).1 ↔ j = k ∨ j ∈ Map.keys m)
    ∧ (∀ j, j ≠ k → Map.find (Map.insert m k v).1 j = Map.find m j) := by
  induction m with
  | nil =>
    refine ⟨fun _ => ⟨rfl, by simp [Map.insert, Map.find]⟩, fun h => absurd rfl h, ?_, ?_, ?_⟩
    · simp [Map.insert, Map.sorted]
    · intro j; simp [Map.insert, Map.keys]
    · intro j hj
      have : ¬ k = j := fun e => hj e.symm
      simp [Map.insert, Map.find, this]
  | cons e m ih =>
    obtain ⟨k1, v1⟩ := e
    obtain ⟨hgt, hsm⟩ := (Map.sorted_cons _ _).1 hs
    obtain ⟨i1, i2, i3, i4, i5⟩ := ih hsm
    by_cases hlt : key_lt k k1 = true
    · -- the new key goes in front
      have hall : ∀ f ∈ (k1, v1) :: m, key_lt k f.1 = true := by
        intro f hf
        rcases List.mem_cons.1 hf with hf | hf
        · rw [hf]; exact hlt
        · exact key_lt_trans _ _ _ hlt (hgt f hf)
      have hins : Map.insert ((k1, v1) :: m) k v = ((k, v) :: (k1, v1) :: m, true) := by
        simp [Map.insert, hlt]
      rw [hins]
      refine ⟨fun _ => ⟨rfl, by simp [Map.find]⟩, ?_, ?_, ?_, ?_⟩
      · intro h; exact absurd (Map.find_none_of_gt _ k hall) h
      · exact (Map.sorted_cons _ _).2 ⟨hall, hs⟩
      · intro j; simp [Map.keys]
      · intro j hj
        have : ¬ k = j := fun e => hj e.symm
        simp only [Map.find, this, if_false]
    · have hlt1 : key_lt k k1 = false := by simpa using hlt
      by_cases hgt1 : key_lt k1 k = true
      · -- the new key goes somewhere after the first entry
        have hne : k1 ≠ k := key_lt_ne _ _ hgt1
        have hins : Map.insert ((k1, v1) :: m) k v
            = ((k1, v1) :: (Map.insert m k v).1, (Map.insert m k v).2) := by
          simp [Map.insert, hlt1, hgt1]
        rw [hins]
        refine ⟨?_, ?_, ?_, ?_, ?_⟩
        · intro h
          simp only [Map.find, hne, if_false] at h
          obtain ⟨j1, j2⟩ := i1 h
          exact ⟨j1, by simp only [Map.find, hne, if_false]; exact j2⟩
        · intro h
          simp only [Map.find, hne, if_false] at h
          rw [i2 h]
        · refine (Map.sorted_cons _ _).2 ⟨?_, i3⟩
          intro f hf
          have hk : f.1 ∈ Map.keys (Map.insert m k v).1 := (Map.mem_keys_iff _ _).2 ⟨f, hf, rfl⟩
          rcases (i4 f.1).1 hk with hk | hk
          · rw [hk]; exact hgt1
          · obtain ⟨g, hg1, hg2⟩ := (Map.mem_keys_iff _ _).1 hk
            rw [← hg2]; exact hgt g hg1
        · intro j
          show j ∈ k1 :: Map.keys (Map.insert m k v).1 ↔ j = k ∨ j ∈ k1 :: Map.keys m
          rw [List.mem_cons, List.mem_cons, i4 j]
          constructor
          · rintro (h | h | h)
            · exact Or.inr (Or.inl h)
            · exact Or.inl h
            · exact Or.inr (Or.inr h)
          · rintro (h | h | h)
            · exact Or.inr (Or.inl h)
            · exact Or.inl h
            · exact Or.inr (Or.inr h)
        · intro j hj
          simp only [Map.find]
          rw [i5 j hj]
      · -- the keys are equivalent, hence equal: nothing is inserted
        have hgt2 : key_lt k1 k = false := by simpa using hgt1
        have heq : k = k1 := key_lt_trichotomy _ _ hlt1 hgt2
        have hins : Map.insert ((k1, v1) :: m) k v = ((k1, v1) :: m, false) := by
          simp [Map.insert, hlt1, hgt2]
        rw [hins]
        refine ⟨?_, fun _ => rfl, hs, ?_, fun _ _ => rfl⟩
        · intro h
          simp [Map.find, heq] at h
        · intro j
          show j ∈ k1 :: Map.keys m ↔ j = k ∨ j ∈ k1 :: Map.keys m
          rw [List.mem_cons, heq]
          constructor
          · intro h; exact Or.inr h
          · rintro (h | h)
            · exact Or.inl h
            · exact h

/-- The member `insert_or_assign` on a sorted map. -/
theorem Map.insert_or_assign_spec {β : Type} (m : Map β) (k : String) (v : β)
    (hs : Map.sorted m) :
    Map.find (Map.insert_or_assign m k v) k = some v
    ∧ Map.sorted (Map.insert_or_assign m k v)
    ∧ (∀ j, j ∈ Map.keys (Map.insert_or_assign m k v) ↔ j = k ∨ j ∈ Map.keys m)
    ∧ (∀ j, j ≠ k → Map.find (Map.insert_or_assign m k v) j = Map.find m j) := by
  induction m with
  | nil =>
    refine ⟨by simp [Map.insert_or_assign, Map.find], by simp [Map.insert_or_assign, Map.sorted],
      fun j => by simp [Map.insert_or_assign, Map.keys], ?_⟩
    intro j hj
    have : ¬ k = j := fun e => hj e.symm
    simp [Map.insert_or_assign, Map.find, this]
  | cons e m ih =>
    obtain ⟨k1, v1⟩ := e
    obtain ⟨hgt, hsm⟩ := (Map.sorted_cons _ _).1 hs
    obtain ⟨i1, i3, i4, i5⟩ := ih hsm
    by_cases hlt : key_lt k k1 = true
    · have hall : ∀ f ∈ (k1, v1) :: m, key_lt k f.1 = true := by
        intro f hf
        rcases List.mem_cons.1 hf with hf | hf
        · rw [hf]; exact hlt
        · exact key_lt_trans _ _ _ hlt (hgt f hf)
      have hins : Map.insert_or_assign ((k1, v1) :: m) k v = (k, v) :: (k1, v1) :: m := by
        simp [Map.insert_or_assign, hlt]
      rw [hins]
      refine ⟨by simp [Map.find], (Map.sorted_cons _ _).2 ⟨hall, hs⟩,
        fun j => by simp [Map.keys], ?_⟩
      intro j hj
      have : ¬ k = j := fun e => hj e.symm
      simp only [Map.find, this, if_false]
    · have hlt1 : key_lt k k1 = false := by simpa using hlt
      by_cases hgt1 : key_lt k1 k = true
      · have hne : k1 ≠ k := key_lt_ne _ _ hgt1
        have hins : Map.insert_or_assign ((k1, v1) :: m) k v
            = (k1, v1) :: Map.insert_or_assign m k v := by
          simp [Map.insert_or_assign, hlt1, hgt1]
        rw [hins]
        refine ⟨by simp only [Map.find, hne, if_false]; exact i1, ?_, ?_, ?_⟩
        · refine (Map.sorted_cons _ _).2 ⟨?_, i3⟩
          intro f hf
          have hk : f.1 ∈ Map.keys (Map.insert_or_assign m k v) :=
            (Map.mem_keys_iff _ _).2 ⟨f, hf, rfl⟩
          rcases (i4 f.1).1 hk with hk | hk
          · rw [hk]; exact hgt1
          · obtain ⟨g, hg1, hg2⟩ := (Map.mem_keys_iff _ _).1 hk
            rw [← hg2]; exact hgt g hg1
        · intro j
          show j ∈ k1 :: Map.keys (Map.insert_or_assign m k v) ↔ j = k ∨ j ∈ k1 :: Map.keys m
          rw [List.mem_cons, List.mem_cons, i4 j]
          constructor
          · rintro (h | h | h)
            · exact Or.inr (Or.inl h)
            · exact Or.inl h
            · exact Or.inr (Or.inr h)
          · rintro (h | h | h)
            · exact Or.inr (Or.inl h)
            · exact Or.inl h
            · exact Or.inr (Or.inr h)
        · intro j hj
          simp only [Map.find]
          rw [i5 j hj]
      · have hgt2 : key_lt k1 k = false := by simpa using hgt1
        have heq : k = k1 := key_lt_trichotomy _ _ hlt1 hgt2
        have hins : Map.insert_or_assign ((k1, v1) :: m) k v = (k1, v) :: m := by
          simp [Map.insert_or_assign, hlt1, hgt2]
        rw [hins]
        refine ⟨by simp [Map.find, heq], (Map.sorted_cons _ _).2 ⟨hgt, hsm⟩, ?_, ?_⟩
        · intro j
          show j ∈ k1 :: Map.keys m ↔ j = k ∨ j ∈ k1 :: Map.keys m
          rw [List.mem_cons, heq]
          constructor
          · intro h; exact Or.inr h
          · rintro (h | h)
            · exact Or.inl h
            · exact h
        · intro j hj
          have : ¬ k1 = j := fun e => hj (by rw [heq, e])
          simp only [Map.find, this, if_false]


/-! ## Declaring arguments -/

theorem leading_dashes_erase_first (s : String) (h : 1 ≤ leading_dashes s) :
    leading_dashes (erase_first s) = leading_dashes s - 1 := by
  rcases s with ⟨l⟩
  cases l with
  | nil => simp [leading_dashes] at h
  | cons c l =>
    by_cases hc : c = '-'
    · simp [leading_dashes, erase_first, List.takeWhile, hc]
    · simp [leading_dashes, List.takeWhile, hc] at h

/-- The name and the routing flag that a successful `validation` leaves. -/
theorem validation_shape (a0 a : Argument) (hv : Argument.validation a0 = (none, a)) :
    (leading_dashes a0.m_name = 0 ∧ a.is_positional = true ∧ a.name = a0.m_name
        ∧ leading_dashes a.name = 0
        ∧ a.options = a0.m_options ++ [a0.m_short_argument])
    ∨ (leading_dashes a0.m_name = 2 ∧ a.is_positional = false
        ∧ a.name = erase_first a0.m_name ∧ leading_dashes a.name = 1
        ∧ a.options = a0.m_options ++ [a0.m_name] ++ [a0.m_short_argument]) := by
  obtain ⟨a1, a2, c, h1, h2, h3, h4, h5⟩ := validation_ok_steps a0 a hv
  obtain ⟨l1, l2, l3⟩ := check_long_argument_cases a0
  have k0 := check_long_argument_keeps a0
  rw [h1] at k0
  simp only at k0
  obtain ⟨s1, s2⟩ := check_short_argument_cases a1
  have hs : Argument.check_short_argument a1
      = (none, { a1 with m_options := a1.m_options ++ [a1.m_short_argument] }) := by
    by_cases hb : a1.m_short_argument ≠ "" ∧ leading_dashes a1.m_short_argument ≠ 1
    · rw [s1 hb] at h2; simp at h2
    · apply s2
      by_cases e : a1.m_short_argument = ""
      · exact Or.inl e
      · right; by_contra h; exact hb ⟨e, h⟩
  rw [hs] at h2
  have ha2 : a2 = { a1 with m_options := a1.m_options ++ [a1.m_short_argument] } :=
    (Prod.mk.inj h2).2.symm
  by_cases hbad : leading_dashes a0.m_name = 1 ∨ 3 ≤ leading_dashes a0.m_name
  · rw [l1 hbad] at h1; simp at h1
  by_cases hz : leading_dashes a0.m_name = 0
  · left
    have e1 := l3 hz
    rw [h1] at e1
    have ha1 : a1 = { a0 with m_positional := true } := (Prod.mk.inj e1).2
    subst h4 ha2 ha1
    exact ⟨hz, rfl, rfl, hz, rfl⟩
  · right
    have htwo : leading_dashes a0.m_name = 2 := by omega
    have e1 := l2 htwo
    rw [h1] at e1
    have ha1 := (Prod.mk.inj e1).2
    subst h4 ha2 ha1
    refine ⟨htwo, rfl, rfl, ?_, rfl⟩
    show leading_dashes (erase_first a0.m_name) = 1
    rw [leading_dashes_erase_first _ (by omega), htwo]

theorem Map.find_none_of_not_mem {β : Type} (m : Map β) (k : String)
    (h : k ∉ Map.keys m) : Map.find m k = none := by
  cases hf : Map.find m k with
  | none => rfl
  | some v => exact absurd (Map.find_mem_keys m k v hf) h

theorem new_well_formed (name description : String) :
    (Command.new name description).well_formed := by
  simp [Command.well_formed, Command.new, Map.sorted, Map.keys]

/-- Adding a validated argument: what the call returns, what `get_argument`
finds afterwards, and that the invariant is kept. -/
theorem add_argument_spec (c : Command) (a0 argument : Argument) (replace : Bool)
    (hwf : c.well_formed) (hv : Argument.validation a0 = (none, argument)) :
    (Map.find (c.collection_of argument) argument.name ≠ none → replace = false →
        c.add_argument argument replace = (some (argument.name ++ ": already exists"), c))
    ∧ ((Map.find (c.collection_of argument) argument.name = none ∨ replace = true) →
        (c.add_argument argument replace).1 = none
        ∧ (c.add_argument argument replace).2.get_argument argument.name = some argument)
    ∧ (c.add_argument argument replace).2.well_formed
    ∧ (∀ j, j ≠ argument.name →
        (c.add_argument argument replace).2.get_argument j = c.get_argument j) := by
  obtain ⟨hsp, hso, hkp, hko⟩ := hwf
  have hshape := validation_shape a0 argument hv
  by_cases hpos : argument.is_positional = true
  · -- routed to the positional collection
    have hld : leading_dashes argument.name = 0 := by
      rcases hshape with h | h
      · exact h.2.2.2.1
      · rw [h.2.1] at hpos; exact absurd hpos (by decide)
    have hcoll : c.collection_of argument = c.m_positional_arguments := by
      simp [Command.collection_of, hpos]
    rw [hcoll]
    obtain ⟨i1, i2, i3, i4, i5⟩ := Map.insert_spec c.m_positional_arguments argument.name
      argument hsp
    obtain ⟨r1, r2, r3, r4⟩ := Map.insert_or_assign_spec c.m_positional_arguments
      argument.name argument hsp
    by_cases hex : Map.find c.m_positional_arguments argument.name = none
    · obtain ⟨j1, j2⟩ := i1 hex
      have hres : c.add_argument argument replace
          = (none, { c with m_positional_arguments :=
              (Map.insert c.m_positional_arguments argument.name argument).1 }) := by
        simp [Command.add_argument, hpos, j1]
      rw [hres]
      refine ⟨fun h => absurd hex h, fun _ => ⟨rfl, ?_⟩, ⟨i3, hso, ?_, hko⟩, ?_⟩
      · simp only [Command.get_argument, j2]
      · intro k hk
        rcases (i4 k).1 hk with hk | hk
        · rw [hk]; exact hld
        · exact hkp k hk
      · intro j hj
        simp only [Command.get_argument, i5 j hj]
    · have hins := i2 hex
      cases replace with
      | false =>
        have hres : c.add_argument argument false
            = (some (argument.name ++ ": already exists"), c) := by
          simp [Command.add_argument, hpos, hins]
        rw [hres]
        refine ⟨fun _ _ => rfl, ?_, ⟨hsp, hso, hkp, hko⟩, fun _ _ => rfl⟩
        rintro (h | h)
        · exact absurd h hex
        · exact absurd h (by decide)
      | true =>
        have hres : c.add_argument argument true
            = (none, { c with m_positional_arguments :=
                Map.insert_or_assign c.m_positional_arguments argument.name argument }) := by
          simp [Command.add_argument, hpos, hins]
        rw [hres]
        refine ⟨fun _ h => absurd h (by decide), fun _ => ⟨rfl, ?_⟩, ⟨r2, hso, ?_, hko⟩, ?_⟩
        · simp only [Command.get_argument, r1]
        · intro k hk
          rcases (r3 k).1 hk with hk | hk
          · rw [hk]; exact hld
          · exact hkp k hk
        · intro j hj
          simp only [Command.get_argument, r4 j hj]
  · -- routed to the optional collection
    have hpos1 : argument.is_positional = false := by simpa using hpos
    have hld : leading_dashes argument.name = 1 := by
      rcases hshape with h | h
      · rw [h.2.1] at hpos1; exact absurd hpos1 (by decide)
      · exact h.2.2.2.1
    have hcoll : c.collection_of argument = c.m_optional_arguments := by
      simp [Command.collection_of, hpos1]
    rw [hcoll]
    have hnp : Map.find c.m_positional_arguments argument.name = none := by
      apply Map.find_none_of_not_mem
      intro hmem
      have := hkp _ hmem
      omega
    obtain ⟨i1, i2, i3, i4, i5⟩ := Map.insert_spec c.m_optional_arguments argument.name
      argument hso
    obtain ⟨r1, r2, r3, r4⟩ := Map.insert_or_assign_spec c.m_optional_arguments
      argument.name argument hso
    by_cases hex : Map.find c.m_optional_arguments argument.name = none
    · obtain ⟨j1, j2⟩ := i1 hex
      have hres : c.add_argument argument replace
          = (none, { c with m_optional_arguments :=
              (Map.insert c.m_optional_arguments argument.name argument).1 }) := by
        simp [Command.add_argument, hpos1, j1]
      rw [hres]
      refine ⟨fun h => absurd hex h, fun _ => ⟨rfl, ?_⟩, ⟨hsp, i3, hkp, ?_⟩, ?_⟩
      · simp only [Command.get_argument, hnp, j2]
      · intro k hk
        rcases (i4 k).1 hk with hk | hk
        · rw [hk]; exact hld
        · exact hko k hk
      · intro j hj
        simp only [Command.get_argument, i5 j hj]
    · have hins := i2 hex
      cases replace with
      | false =>
        have hres : c.add_argument argument false
            = (some (argument.name ++ ": already exists"), c) := by
          simp [Command.add_argument, hpos1, hins]
        rw [hres]
        refine ⟨fun _ _ => rfl, ?_, ⟨hsp, hso, hkp, hko⟩, fun _ _ => rfl⟩
        rintro (h | h)
        · exact absurd h hex
        · exact absurd h (by decide)
      | true =>
        have hres : c.add_argument argument true
            = (none, { c with m_optional_arguments :=
                Map.insert_or_assign c.m_optional_arguments argument.name argument }) := by
          simp [Command.add_argument, hpos1, hins]
        rw [hres]
        refine ⟨fun _ h => absurd h (by decide), fun _ => ⟨rfl, ?_⟩, ⟨hsp, r2, hkp, ?_⟩, ?_⟩
        · simp only [Command.get_argument, hnp, r1]
        · intro k hk
          rcases (r3 k).1 hk with hk | hk
          · rw [hk]; exact hld
          · exact hko k hk
        · intro j hj
          simp only [Command.get_argument, r4 j hj]


theorem declare_well_formed (arguments : List (Argument × Bool)) : ∀ c : Command,
    c.well_formed → (∀ e ∈ arguments, ∃ a0, Argument.validation a0 = (none, e.1)) →
    (Command.declare c arguments).well_formed := by
  induction arguments with
  | nil => intro c h _; exact h
  | cons e rest ih =>
    intro c hwf hall
    obtain ⟨a0, ha0⟩ := hall e (List.mem_cons_self _ _)
    have h1 := (add_argument_spec c a0 e.1 e.2 hwf ha0).2.2.1
    have h2 := ih (c.add_argument e.1 e.2).2 h1
      (fun f hf => hall f (List.mem_cons_of_mem _ hf))
    simpa [Command.declare] using h2

/-- Claim C12: on a command whose arguments were all validated, `add_argument`
with a validated argument whose name already exists in the collection it is
routed to succeeds when `replace` is true, and `get_argument` of the name then
returns the new argument; when `replace` is false it fails with the name
followed by already exists and the command is unchanged. When the name does
not exist the call succeeds for either value of `replace` and `get_argument`
of the name returns the added argument. -/
theorem add_argument_replace_or_reject (c : Command) (a0 argument : Argument)
    (hwf : c.well_formed) (hv : Argument.validation a0 = (none, argument)) :
    (Map.find (c.collection_of argument) argument.name ≠ none →
        ((c.add_argument argument true).1 = none
          ∧ (c.add_argument argument true).2.get_argument argument.name = some argument)
        ∧ c.add_argument argument false
            = (some (argument.name ++ ": already exists"), c))
    ∧ (Map.find (c.collection_of argument) argument.name = none →
        ∀ replace, (c.add_argument argument replace).1 = none
          ∧ (c.add_argument argument replace).2.get_argument argument.name
              = some argument) := by
  refine ⟨?_, ?_⟩
  · intro hex
    exact ⟨(add_argument_spec c a0 argument true hwf hv).2.1 (Or.inr rfl),
      (add_argument_spec c a0 argument false hwf hv).1 hex rfl⟩
  · intro hnone replace
    exact (add_argument_spec c a0 argument replace hwf hv).2.1 (Or.inl hnone)

theorem add_argument_replace_or_reject_witness :
    command_a_b.well_formed
      ∧ Argument.validation (Argument.new "string" "a" "" "the new a" none)
          = (none, (Argument.validation (Argument.new "string" "a" "" "the new a" none)).2)
      ∧ Map.find (command_a_b.collection_of
          (Argument.validation (Argument.new "string" "a" "" "the new a" none)).2)
          (Argument.validation (Argument.new "string" "a" "" "the new a" none)).2.name ≠ none
      ∧ ((command_a_b.add_argument
            (Argument.validation (Argument.new "string" "a" "" "the new a" none)).2 true).1 = none
          ∧ (command_a_b.add_argument
              (Argument.validation (Argument.new "string" "a" "" "the new a" none)).2
              true).2.get_argument
              (Argument.validation (Argument.new "string" "a" "" "the new a" none)).2.name
            = some (Argument.validation (Argument.new "string" "a" "" "the new a" none)).2)
      ∧ command_a_b.add_argument
          (Argument.validation (Argument.new "string" "a" "" "the new a" none)).2 false
        = (some ((Argument.validation (Argument.new "string" "a" "" "the new a" none)).2.name
            ++ ": already exists"), command_a_b) :=
  have hwf : command_a_b.well_formed :=
    declare_well_formed _ _ (new_well_formed _ _) (by
      intro e he
      simp only [List.mem_cons, List.mem_singleton, List.not_mem_nil, or_false] at he
      rcases he with he | he
      · exact ⟨Argument.new "string" "a" "" "---" none, by rw [he]; rfl⟩
      · exact ⟨Argument.new "string" "b" "" "---" none, by rw [he]; rfl⟩)
  ⟨hwf, rfl, by decide,
    (add_argument_replace_or_reject command_a_b
      (Argument.new "string" "a" "" "the new a" none) _ hwf rfl).1 (by decide)⟩


/-! ## The canonical name of an optional argument -/

/-- Forgetting the trace gives the loop of `parse`. -/
theorem parse_loop_traced_result (fp : FloatParsers) : ∀ (fuel : Nat)
    (command : Option String) (q : ArgParser),
    (ArgParser.parse_loop_traced fp fuel command q).map Prod.fst
      = ArgParser.parse_loop fp fuel command q := by
  intro fuel
  induction fuel with
  | zero =>
    intro command q
    simp only [ArgParser.parse_loop_traced, ArgParser.parse_loop]
    split_ifs <;> rfl
  | succ fuel ih =>
    intro command q
    cases hq : q.m_arguments_list with
    | nil => simp only [ArgParser.parse_loop_traced, ArgParser.parse_loop, hq]; rfl
    | cons tok popped =>
      simp only [ArgParser.parse_loop_traced, ArgParser.parse_loop, hq]
      have hpos : ∀ (q2 : ArgParser) (cmd : Option String),
          (match (ArgParser.pointee q2 cmd).set_positional_argument_value fp tok with
            | .error f => some (((.fault f, q2) : Ending × ArgParser), cmd, ([] : List String))
            | .ok (some error, c1) =>
              some ((.delete_at_return (some error), ArgParser.store q2 cmd c1), cmd, [])
            | .ok (none, c1) =>
              ArgParser.parse_loop_traced fp fuel cmd (ArgParser.store q2 cmd c1)).map Prod.fst
          = (match (ArgParser.pointee q2 cmd).set_positional_argument_value fp tok with
            | .error f => some (.fault f, q2)
            | .ok (some error, c1) =>
              some (.delete_at_return (some error), ArgParser.store q2 cmd c1)
            | .ok (none, c1) =>
              ArgParser.parse_loop fp fuel cmd (ArgParser.store q2 cmd c1)) := by
        intro q2 cmd
        cases hs : (ArgParser.pointee q2 cmd).set_positional_argument_value fp tok with
        | error e => rfl
        | ok r =>
          obtain ⟨e1, c1⟩ := r
          cases e1 with
          | some e => rfl
          | none => exact ih _ _
      by_cases hd : starts_with tok "-" = true
      · simp only [hd, if_true]
        cases hs : (ArgParser.pointee { q with m_arguments_list := popped }
            command).set_optional_argument_value fp tok popped with
        | error e => rfl
        | ok r =>
          obtain ⟨e1, c1, queue1⟩ := r
          cases e1 with
          | some e => rfl
          | none =>
            simp only [Option.map_map]
            exact ih _ _
      · simp only [hd, Bool.false_eq_true, if_false]
        split_ifs
        · exact hpos _ _
        · cases hf : Map.find q.m_commands tok with
          | some search => rfl
          | none => exact hpos _ _


theorem parse_traced_result (fp : FloatParsers) (p : ArgParser) (argv0 : String)
    (args : List String) :
    (ArgParser.parse_traced fp p argv0 args).map Prod.fst = ArgParser.parse fp p argv0 args := by
  unfold ArgParser.parse_traced ArgParser.parse
  exact parse_loop_traced_result fp _ _ _

/-- Every token in the trace of option calls starts with a dash. -/
theorem parse_loop_traced_calls (fp : FloatParsers) : ∀ (fuel : Nat)
    (command : Option String) (q : ArgParser) (r : Ending × ArgParser)
    (cmd1 : Option String) (calls : List String),
    ArgParser.parse_loop_traced fp fuel command q = some (r, cmd1, calls) →
    ∀ t ∈ calls, starts_with t "-" = true := by
  intro fuel
  induction fuel with
  | zero =>
    intro command q r cmd1 calls h
    simp only [ArgParser.parse_loop_traced] at h
    split_ifs at h
    simp only [Option.some.injEq, Prod.mk.injEq] at h
    rw [← h.2.2]; simp
  | succ fuel ih =>
    intro command q r cmd1 calls h
    cases hq : q.m_arguments_list with
    | nil =>
      simp only [ArgParser.parse_loop_traced, hq, Option.some.injEq, Prod.mk.injEq] at h
      rw [← h.2.2]; simp
    | cons tok popped =>
      simp only [ArgParser.parse_loop_traced, hq] at h
      have hpos : ∀ (q2 : ArgParser) (cmd : Option String),
          (match (ArgParser.pointee q2 cmd).set_positional_argument_value fp tok with
            | .error f => some (((.fault f, q2) : Ending × ArgParser), cmd, ([] : List String))
            | .ok (some error, c1) =>
              some ((.delete_at_return (some error), ArgParser.store q2 cmd c1), cmd, [])
            | .ok (none, c1) =>
              ArgParser.parse_loop_traced fp fuel cmd (ArgParser.store q2 cmd c1))
            = some (r, cmd1, calls) →
          ∀ t ∈ calls, starts_with t "-" = true := by
        intro q2 cmd h2
        cases hs : (ArgParser.pointee q2 cmd).set_positional_argument_value fp tok with
        | error e =>
          rw [hs] at h2
          simp only [Option.some.injEq, Prod.mk.injEq] at h2
          rw [← h2.2.2]; simp
        | ok r1 =>
          obtain ⟨e1, c1⟩ := r1
          rw [hs] at h2
          cases e1 with
          | some e =>
            simp only [Option.some.injEq, Prod.mk.injEq] at h2
            rw [← h2.2.2]; simp
          | none => exact ih _ _ _ _ _ h2
      by_cases hd : starts_with tok "-" = true
      · simp only [hd, if_true] at h
        cases hs : (ArgParser.pointee { q with m_arguments_list := popped }
            command).set_optional_argument_value fp tok popped with
        | error e =>
          rw [hs] at h
          simp only [Option.some.injEq, Prod.mk.injEq] at h
          rw [← h.2.2]; simpa using hd
        | ok r1 =>
          obtain ⟨e1, c1, queue1⟩ := r1
          rw [hs] at h
          cases e1 with
          | some e =>
            simp only [Option.some.injEq, Prod.mk.injEq] at h
            rw [← h.2.2]; simpa using hd
          | none =>
            simp only at h
            cases hrec : ArgParser.parse_loop_traced fp fuel command
                (ArgParser.store { q with m_arguments_list := queue1 } command c1) with
            | none => rw [hrec] at h; simp at h
            | some r2 =>
              obtain ⟨r3, cmd3, calls3⟩ := r2
              rw [hrec] at h
              simp only [Option.map_some', Option.some.injEq, Prod.mk.injEq] at h
              rw [← h.2.2]
              intro t ht
              rcases List.mem_cons.1 ht with ht | ht
              · rw [ht]; exact hd
              · exact ih _ _ _ _ _ hrec t ht
      · simp only [hd, Bool.false_eq_true, if_false] at h
        split_ifs at h
        · exact hpos _ _ h
        · cases hf : Map.find q.m_commands tok with
          | some search =>
            simp only [hf, Option.some.injEq, Prod.mk.injEq] at h
            rw [← h.2.2]; simp
          | none =>
            simp only [hf] at h
            exact hpos _ _ h

/-! ## The empty alias -/

/-- On the selected entry the scan does what it does on that entry alone. -/
theorem set_optional_scan_head (fp : FloatParsers) (tok : String) (queue : List String)
    (k : String) (arg : Argument) (post : Map Argument)
    (hin : is_in_vector arg.options tok = true) :
    Command.set_optional_scan fp tok queue ((k, arg) :: post)
      = match Command.set_optional_scan fp tok queue [(k, arg)] with
        | .error e => .error e
        | .ok (error, r, queue1) => .ok (error, r ++ post, queue1) := by
  simp only [Command.set_optional_scan, hin, if_true]
  split_ifs
  · cases arg.set_value fp "true" with
    | error e => rfl
    | ok r => rfl
  · cases queue with
    | nil => rfl
    | cons front popped =>
      simp only
      split_ifs
      · rfl
      · cases hs : arg.set_value fp front with
        | error e => rfl
        | ok r =>
          obtain ⟨e1, a1⟩ := r
          cases e1 <;> rfl

/-- Claim C20: a successful `validation` has appended the short alias to the
alias set, so an argument declared without one has the empty string there.
Called with the empty token, `set_optional_argument_value` acts on the first
optional argument in key order that has the empty alias, and on it alone.
But every token that `parse` passes to `set_optional_argument_value` starts
with a dash, so none is empty; the empty token does not start with a dash and
is handled as a bare token. -/
theorem empty_alias_unreachable (fp : FloatParsers) :
    (∀ a0 a, Argument.validation a0 = (none, a) → a0.m_short_argument ∈ a.options)
    ∧ (∀ type name description default_value a,
        Argument.validation (Argument.new type name "" description default_value) = (none, a) →
        is_in_vector a.options "" = true)
    ∧ (∀ (c : Command) (queue : List String) (pre post : Map Argument) (k : String)
        (arg : Argument), c.m_optional_arguments = pre ++ (k, arg) :: post →
        (∀ e ∈ pre, is_in_vector e.2.options "" = false) →
        is_in_vector arg.options "" = true →
        c.set_optional_argument_value fp "" queue
          = match Command.set_optional_scan fp "" queue [(k, arg)] with
            | .error e => .error e
            | .ok (error, r, queue1) =>
              .ok (error, { c with m_optional_arguments := pre ++ (r ++ post) }, queue1))
    ∧ (∀ (p : ArgParser) (argv0 : String) (args : List String),
        (ArgParser.parse_traced fp p argv0 args).map Prod.fst = ArgParser.parse fp p argv0 args
        ∧ ∀ r command calls, ArgParser.parse_traced fp p argv0 args = some (r, command, calls) →
            ∀ t ∈ calls, starts_with t "-" = true ∧ t ≠ "")
    ∧ starts_with "" "-" = false := by
  refine ⟨?_, ?_, ?_, ?_, by decide⟩
  · intro a0 a hv
    rcases validation_shape a0 a hv with h | h
    · rw [h.2.2.2.2]; simp
    · rw [h.2.2.2.2]; simp
  · intro type name description default_value a hv
    have hmem : "" ∈ a.options := by
      rcases validation_shape _ a hv with h | h
      · rw [h.2.2.2.2]; simp [Argument.new]
      · rw [h.2.2.2.2]; simp [Argument.new]
    simp only [is_in_vector, List.any_eq_true, decide_eq_true_eq]
    exact ⟨"", hmem, rfl⟩
  · intro c queue pre post k arg hm hpre hin
    rw [set_optional_selected fp c "" queue pre post k arg hm hpre,
      set_optional_scan_head fp "" queue k arg post hin]
    cases Command.set_optional_scan fp "" queue [(k, arg)] with
    | error e => rfl
    | ok r => rfl
  · intro p argv0 args
    refine ⟨parse_traced_result fp p argv0 args, ?_⟩
    intro r command calls h t ht
    unfold ArgParser.parse_traced at h
    have hd := parse_loop_traced_calls fp _ _ _ _ _ _ h t ht
    refine ⟨hd, ?_⟩
    intro e
    rw [e] at hd
    exact absurd hd (by decide)


/-! ## Failing steps -/

/-- A scan that finds no alias returns the unknown-argument error and changes nothing. -/
theorem set_optional_scan_unknown (fp : FloatParsers) (tok : String) (queue : List String)
    (m : Map Argument) (h : ∀ e ∈ m, is_in_vector e.2.options tok = false) :
    Command.set_optional_scan fp tok queue m
      = .ok (some ("unknown argument \x60" ++ tok ++ "\x27"), m, queue) := by
  have := set_optional_scan_skip fp tok queue m [] h
  simp only [List.append_nil] at this
  rw [this]
  simp [Command.set_optional_scan]

/-- A scan that returns an error has changed neither the collection nor the queue. -/
theorem set_optional_scan_error (fp : FloatParsers) (tok : String) (queue : List String) :
    ∀ (m m1 : Map Argument) (e : String) (queue1 : List String),
      Command.set_optional_scan fp tok queue m = .ok (some e, m1, queue1) →
      m1 = m ∧ queue1 = queue := by
  intro m
  induction m with
  | nil =>
    intro m1 e queue1 h
    simp only [Command.set_optional_scan, Except.ok.injEq, Prod.mk.injEq] at h
    exact ⟨h.2.1.symm, h.2.2.symm⟩
  | cons en m ih =>
    obtain ⟨k, a⟩ := en
    intro m1 e queue1 h
    simp only [Command.set_optional_scan] at h
    split at h
    · split at h
      · split at h
        · simp at h
        · simp at h
      · split at h
        · simp only [Except.ok.injEq, Prod.mk.injEq] at h
          exact ⟨h.2.1.symm, h.2.2.symm⟩
        · split at h
          · simp only [Except.ok.injEq, Prod.mk.injEq] at h
            exact ⟨h.2.1.symm, h.2.2.symm⟩
          · split at h
            · simp at h
            · rename_i hs
              obtain ⟨w, -, ha⟩ := set_value_error_shape fp _ _ _ _ hs
              simp only [Except.ok.injEq, Prod.mk.injEq] at h
              rw [ha] at h
              exact ⟨h.2.1.symm, h.2.2.symm⟩
            · simp at h
    · split at h
      · simp at h
      · rename_i error1 rest1 queue2 hrec
        simp only [Except.ok.injEq, Prod.mk.injEq] at h
        obtain ⟨h1, h2, h3⟩ := h
        subst h1
        obtain ⟨i1, i2⟩ := ih _ _ _ hrec
        rw [← h2, ← h3, i1, i2]
        exact ⟨rfl, rfl⟩

theorem set_optional_argument_value_error (fp : FloatParsers) (c c1 : Command) (tok e : String)
    (queue queue1 : List String)
    (h : c.set_optional_argument_value fp tok queue = .ok (some e, c1, queue1)) :
    c1 = c ∧ queue1 = queue := by
  unfold Command.set_optional_argument_value at h
  cases hs : Command.set_optional_scan fp tok queue c.m_optional_arguments with
  | error x => rw [hs] at h; simp at h
  | ok r =>
    obtain ⟨e1, m1, queue2⟩ := r
    rw [hs] at h
    simp only [Except.ok.injEq, Prod.mk.injEq] at h
    obtain ⟨h1, h2, h3⟩ := h
    subst h1
    obtain ⟨i1, i2⟩ := set_optional_scan_error fp tok queue _ _ _ _ hs
    rw [← h2, ← h3, i1, i2]
    exact ⟨rfl, rfl⟩

/-! ## The runs of `parse` -/

/-- Claim C1, evaluated on the code. The parser declares the string positionals
a and b; its default command is the copy that the constructor made, so its
cursor is an iterator of another container. On the tokens first, second the
loop passes the first token to `set_positional_argument_value`, whose
comparison and dereference of that cursor are undefined: the run ends there,
with the second token still queued and neither a nor b given a value. On a
command that was never copied the same call is defined and fails with the
unknown-argument error, the cursor being at `end()`. -/
theorem parse_two_positionals_foreign_cursor (fp : FloatParsers) :
    Map.keys parser_a_b.m_default_command.m_positional_arguments = ["a", "b"]
      ∧ parser_a_b.m_default_command.m_positional_iterator = Iter.foreign
      ∧ ArgParser.parse fp parser_a_b "prog" ["first", "second"]
          = some (.fault .foreign_cursor,
              { parser_a_b with m_application_name := "prog", m_arguments_list := ["second"] })
      ∧ (parser_a_b.m_default_command.m_positional_arguments.map fun e => (e.1, e.2.m_value))
          = [("a", none), ("b", none)]
      ∧ (∃ c1, command_a_b.set_positional_argument_value fp "first"
            = .ok (some "first: unknown argument", c1)
          ∧ c1.set_positional_argument_value fp "second"
            = .ok (some "second: unknown argument", c1)
          ∧ (c1.m_positional_arguments.map fun e => (e.1, e.2.m_value))
            = [("a", none), ("b", none)]) :=
  ⟨by decide, rfl, rfl, by decide, command_a_b, rfl, rfl, by decide⟩

/-- Claim C2, evaluated on the code: when no command is active and a bare token
names a registered command, the loop reaches the assignment to the local
pointer. The pointer owns the default command, a member of the parser, and the
assignment deletes it: the run ends there. The flag of the command is not set,
the active command name is still empty, and the tokens after the command name
are still queued, none of them handed to the command. -/
theorem command_token_deletes_default (fp : FloatParsers) (p : ArgParser) (argv0 t : String)
    (c : Command) (rest : List String) (hact : p.m_active_command_name = "")
    (hbare : starts_with t "-" = false) (hf : Map.find p.m_commands t = some c) :
    ArgParser.parse fp p argv0 (t :: rest)
      = some (.delete_at_switch t,
          { p with m_application_name := argv0, m_arguments_list := rest }) := by
  have hact1 : (!p.m_active_command_name.data.isEmpty) = false := by
    rw [hact]; rfl
  simp only [ArgParser.parse, List.isEmpty_cons, Bool.false_eq_true, if_false,
    List.length_cons]
  rw [ArgParser.parse_loop]
  simp only [hbare, Bool.false_eq_true, if_false, hact1, hf]

theorem command_token_deletes_default_witness :
    parser_build.m_active_command_name = ""
      ∧ starts_with "build" "-" = false
      ∧ Map.find parser_build.m_commands "build" = some command_build.copy
      ∧ ArgParser.parse no_floats parser_build "prog" ["build", "app"]
          = some (.delete_at_switch "build",
              { parser_build with m_application_name := "prog", m_arguments_list := ["app"] })
      ∧ flagged parser_build.m_commands = [] :=
  ⟨rfl, by decide, by decide,
    command_token_deletes_default no_floats parser_build "prog" "build" command_build.copy
      ["app"] rfl (by decide) (by decide), by decide⟩

/-- Claim C3, evaluated on the code. The default command of every parser is a
copy: the constructor leaves its cursor an iterator of another container, and
neither `add_argument` nor `add_command` moves it. When no command is active
and a bare token names no registered command, the loop passes the token to
`set_positional_argument_value` of the default command, whose use of that
cursor is undefined: the run ends there and no error is returned. -/
theorem bare_token_foreign_cursor (fp : FloatParsers) :
    (∀ raise_error print_usage : Bool,
        (ArgParser.new raise_error print_usage).m_default_command.m_positional_iterator
          = Iter.foreign)
    ∧ (∀ (p : ArgParser) (a : Argument),
        (p.add_argument a).m_default_command.m_positional_iterator
          = p.m_default_command.m_positional_iterator)
    ∧ (∀ (p : ArgParser) (c : Command),
        (p.add_command c).m_default_command = p.m_default_command)
    ∧ (∀ (p : ArgParser) (argv0 t : String) (rest : List String),
        p.m_active_command_name = "" → starts_with t "-" = false →
        Map.find p.m_commands t = none →
        p.m_default_command.m_positional_iterator = Iter.foreign →
        ArgParser.parse fp p argv0 (t :: rest)
          = some (.fault .foreign_cursor,
              { p with m_application_name := argv0, m_arguments_list := rest })) := by
  refine ⟨fun _ _ => rfl, fun p a => add_argument_cursor _ _ _, fun _ _ => rfl, ?_⟩
  intro p argv0 t rest hact hbare hf hc
  have hact1 : (!p.m_active_command_name.data.isEmpty) = false := by
    rw [hact]; rfl
  simp only [ArgParser.parse, List.isEmpty_cons, Bool.false_eq_true, if_false,
    List.length_cons]
  rw [ArgParser.parse_loop]
  simp only [hbare, Bool.false_eq_true, if_false, hact1, hf, ArgParser.pointee,
    Command.set_positional_argument_value, hc]

theorem bare_token_foreign_cursor_witness :
    parser_build.m_active_command_name = ""
      ∧ starts_with "app" "-" = false
      ∧ Map.find parser_build.m_commands "app" = none
      ∧ parser_build.m_default_command.m_positional_arguments = []
      ∧ ArgParser.parse no_floats parser_build "prog" ["app", "build"]
          = some (.fault .foreign_cursor,
              { parser_build with m_application_name := "prog", m_arguments_list := ["build"] }) :=
  ⟨rfl, by decide, by decide, rfl,
    (bare_token_foreign_cursor no_floats).2.2.2 parser_build "prog" "app" ["build"] rfl
      (by decide) (by decide) rfl⟩

/-- Claim C13, evaluated on the code. A token that starts with a dash is
resolved against the default command, the only command the local pointer
reaches. If none of its optional arguments has the token in its alias set, so
also when only a registered command declares the option, the loop reaches the
`return` with the unknown-argument error and with every object as it was. The
destructor of the local pointer then deletes the default command, a member of
the parser: the behaviour is undefined from there on, and no error is promised
to the caller. -/
theorem unknown_option_deletes_at_return (fp : FloatParsers) (tok : String)
    (hd : starts_with tok "-" = true) (p : ArgParser) (argv0 : String) (rest : List String)
    (hno : ∀ e ∈ p.m_default_command.m_optional_arguments,
      is_in_vector e.2.options tok = false) :
    ArgParser.parse fp p argv0 (tok :: rest)
      = some (.delete_at_return (some ("unknown argument \x60" ++ tok ++ "\x27")),
          { p with m_application_name := argv0, m_arguments_list := rest }) := by
  simp only [ArgParser.parse, List.isEmpty_cons, Bool.false_eq_true, if_false,
    List.length_cons]
  rw [ArgParser.parse_loop]
  simp only [hd, if_true, ArgParser.pointee, Command.set_optional_argument_value,
    set_optional_scan_unknown fp tok rest _ hno]
  rfl

theorem unknown_option_deletes_at_return_witness :
    starts_with "--release" "-" = true
      ∧ (∃ c, Map.find parser_verbose_release.m_commands "build" = some c
          ∧ ∃ a, Map.find c.m_optional_arguments "-release" = some a
            ∧ is_in_vector a.options "--release" = true)
      ∧ ArgParser.parse no_floats parser_verbose_release "prog" ["--release", "build"]
          = some (.delete_at_return (some ("unknown argument \x60" ++ "--release" ++ "\x27")),
              { parser_verbose_release with
                  m_application_name := "prog", m_arguments_list := ["build"] }) :=
  ⟨by decide, ⟨_, rfl, _, rfl, by decide⟩,
    unknown_option_deletes_at_return no_floats "--release" (by decide) parser_verbose_release
      "prog" ["build"] (by decide)⟩

/-- Claim C14, evaluated on the code. When the call for a token that starts
with a dash fails, the loop reaches the `return` with the error of that call:
the call has changed nothing and the tokens after it are still queued. On the
tokens --count, 1, --count, x, --count, 2 the first option is stored, the
second fails in the converter, and the third is never looked at. In both cases
the destructor of the local pointer then deletes the default command, a member
of the parser: the behaviour is undefined from there on, and no error is
promised to the caller. -/
theorem failing_option_deletes_at_return (fp : FloatParsers) :
    (∀ (p : ArgParser) (argv0 tok : String) (rest : List String) (e : String) (c1 : Command)
        (queue1 : List String), starts_with tok "-" = true →
        p.m_default_command.set_optional_argument_value fp tok rest = .ok (some e, c1, queue1) →
        ArgParser.parse fp p argv0 (tok :: rest)
          = some (.delete_at_return (some e),
              { p with m_application_name := argv0, m_arguments_list := rest }))
    ∧ (∃ q, ArgParser.parse fp parser_count "prog"
            ["--count", "1", "--count", "x", "--count", "2"]
          = some (.delete_at_return (some "--count: converter error: stoi"), q)
        ∧ q.m_arguments_list = ["x", "--count", "2"]
        ∧ (q.m_default_command.m_optional_arguments.map fun e => (e.1, e.2.m_value))
            = [("-count", some (.int 1))]
        ∧ q.m_commands = parser_count.m_commands
        ∧ q.m_active_command_name = "") := by
  refine ⟨?_, ⟨_, rfl, rfl, by decide, rfl, rfl⟩⟩
  intro p argv0 tok rest e c1 queue1 hd hs
  obtain ⟨h1, h2⟩ := set_optional_argument_value_error fp _ _ _ _ _ _ hs
  subst h1 h2
  simp only [ArgParser.parse, List.isEmpty_cons, Bool.false_eq_true, if_false,
    List.length_cons]
  rw [ArgParser.parse_loop]
  simp only [hd, if_true, ArgParser.pointee, hs]
  rfl

theorem failing_option_deletes_at_return_witness :
    starts_with "--count" "-" = true
      ∧ parser_count.m_default_command.set_optional_argument_value no_floats "--count" ["x", "y"]
          = .ok (some "--count: converter error: stoi", parser_count.m_default_command,
              ["x", "y"])
      ∧ ArgParser.parse no_floats parser_count "prog" ["--count", "x", "y"]
          = some (.delete_at_return (some "--count: converter error: stoi"),
              { parser_count with m_application_name := "prog", m_arguments_list := ["x", "y"] }) :=
  ⟨by decide, rfl,
    (failing_option_deletes_at_return no_floats).1 parser_count "prog" "--count" ["x", "y"]
      "--count: converter error: stoi" parser_count.m_default_command ["x", "y"]
      (by decide) rfl⟩

end argparser
